import Mathlib

/-!
# ESP32 application launcher screen (`main/menus/launcher_esp32.c`)

A shallow embedding of `populate`, `context_menu` and `menu_launcher_esp32`.

* The application registry (appfs), the heap of payload blocks, the icon
  counter and the trace of collaborator calls form an explicit `World`
  that is passed through every operation.
* The two event loops block on `xQueueReceive`; one element of the input
  list is the outcome of one such call (`none` is a timeout).  The nested
  blocking loop of `context_menu` is a mode of the same machine, so a run
  is a left fold of `step` over the inputs.
-/

namespace LauncherEsp32

/-! ## Input events (`rp2040_input_message_t`) -/

/-- Input kinds of the RP2040 co-processor that the two switch statements name
(`Input.X` stands for `RP2040_INPUT_X`); every other kind is `OTHER`. -/
inductive Input where
  | JOYSTICK_DOWN
  | JOYSTICK_UP
  | BUTTON_ACCEPT
  | JOYSTICK_PRESS
  | BUTTON_HOME
  | BUTTON_BACK
  | BUTTON_MENU
  | BUTTON_SELECT
  | BUTTON_START
  | OTHER (code : Nat)
  deriving DecidableEq, Repr

/-- One message of the button queue: `input` kind and `state` (pressed). -/
structure Msg where
  input : Input
  state : Bool
  deriving DecidableEq, Repr

/-! ## Application registry (appfs) -/

/-- Modelled from the spec: the sentinel invalid handle `APPFS_INVALID_FD` that
ends the enumeration; `-1`, which is no slot number. -/
def APPFS_INVALID_FD : Int := -1

/-- Modelled from the spec: the `ApplicationRecord` that `appfsEntryInfoExt`
reports for a handle.  The first out-parameter is called `slug` in `populate`
and `name` in `context_menu`. -/
structure AppInfo where
  name : String
  title : String
  version : Nat
  deriving DecidableEq, Repr

/-- Modelled from the spec: the registry, a store of records addressed by
handles; here a table of slots, the handle of a record being its slot number. -/
abbrev Registry := List (Option AppInfo)

/-- First occupied slot of a table suffix whose first slot has number `i`. -/
def scanEntry : List (Option AppInfo) → Nat → Int
  | [], _ => APPFS_INVALID_FD
  | some _ :: _, i => (i : Int)
  | none :: rest, i => scanEntry rest (i + 1)

/-- Modelled from the spec: the registry collaborator's cursor
`next(after: handle | sentinel) -> handle | sentinel` (appfs is not part of the
source file).  The next record after `fd`; after the sentinel, the first. -/
def appfsNextEntry (reg : Registry) (fd : Int) : Int :=
  scanEntry (reg.drop (fd + 1).toNat) (fd + 1).toNat

/-- Modelled from the spec: the registry collaborator's
`info(handle) -> (slug, title, version)`.  For a handle without a record the
out-parameters keep their initial values (`NULL`, `NULL`, `0xFFFF`), rendered
here as empty strings. -/
def appfsEntryInfoExt (reg : Registry) (fd : Int) : AppInfo :=
  if fd < 0 then ⟨"", "", 0xFFFF⟩
  else match reg.get? fd.toNat with
    | some (some a) => a
    | _ => ⟨"", "", 0xFFFF⟩

/-- The records of a table suffix in enumeration order, with their handles. -/
def entriesFrom : List (Option AppInfo) → Nat → List (Int × AppInfo)
  | [], _ => []
  | some a :: rest, i => ((i : Int), a) :: entriesFrom rest (i + 1)
  | none :: rest, i => entriesFrom rest (i + 1)

/-- All records of the registry in enumeration order. -/
def appEntries (reg : Registry) : List (Int × AppInfo) :=
  entriesFrom reg 0

/-! ## File paths -/

/-- A C string, as the list of its bytes (the terminating NUL left out). -/
abbrev Path := List Nat

/-- The UTF-8 bytes of a character. -/
def utf8Bytes (c : Char) : List Nat :=
  if c.toNat < 0x80 then [c.toNat]
  else if c.toNat < 0x800 then [0xC0 + c.toNat / 64, 0x80 + c.toNat % 64]
  else if c.toNat < 0x10000 then
    [0xE0 + c.toNat / 4096, 0x80 + c.toNat / 64 % 64, 0x80 + c.toNat % 64]
  else
    [0xF0 + c.toNat / 262144, 0x80 + c.toNat / 4096 % 64, 0x80 + c.toNat / 64 % 64,
     0x80 + c.toNat % 64]

/-- The bytes of a string. -/
def cBytes (s : String) : Path :=
  s.data.flatMap utf8Bytes

/-! ## Trace of collaborator calls -/

/-- Calls made to collaborators, in program order. -/
inductive Event where
  | malloc (addr : Nat) (value : Int)
  | free (addr : Nat)
  | deref (addr : Nat)
  | fopen (path : Path) (ok : Bool)
  | fclose (path : Path)
  | load_file_to_ram (path : Path) (ok : Bool)
  | free_icon_data (path : Path)
  | malloc_icon (id : Nat)
  | pax_decode_png_buf (id : Nat) (ok : Bool)
  | menu_release_icon (id : Nat)
  | pax_buf_destroy (id : Nat)
  | decode_apps_icon
  | destroy_apps_icon
  | menu_alloc (title : String)
  | menu_free (title : String)
  | render_launcher (empty_message : Bool)
  | render_context
  | render_message (text : String)
  | appfsDeleteFile (name : String)
  | appfs_boot_app (fd : Int)
  | context_menu (fd : Int)
  | populate_return (empty : Bool)
  deriving DecidableEq, Repr

/-! ## Heap of payload blocks -/

/-- The heap of `appfs_handle_t` blocks: `next` is the next fresh address
(addresses start at 1, `0` is `NULL`), `cells` the live blocks with the handle
each one stores. -/
structure Heap where
  next : Nat
  cells : List (Nat × Int)
  deriving DecidableEq, Repr

/-- Reading `*p`: the stored handle when the block is live. -/
def Heap.read (h : Heap) (p : Nat) : Option Int :=
  (h.cells.find? (fun c => c.1 == p)).map Prod.snd

/-! ## Environment and world -/

/-- Outcomes of the icon-loading collaborators for a path, and the effect of
`appfsDeleteFile` on the registry. -/
structure Env where
  fopen : Path → Bool
  load_file_to_ram : Path → Bool
  malloc_pax_buf : Path → Bool
  pax_decode_png_buf : Path → Bool
  appfsDeleteFile : String → Registry → Registry

/-- Everything outside the controller's local variables. -/
structure World where
  reg : Registry
  heap : Heap
  nextIcon : Nat
  trace : List Event
  deriving DecidableEq, Repr

/-- Append one call to the trace. -/
def World.emit (w : World) (e : Event) : World :=
  { w with trace := w.trace ++ [e] }

/-- `malloc(sizeof(appfs_handle_t))` followed by `*args = value`.  The source
dereferences the result unchecked, so the allocation is taken to succeed. -/
def World.malloc (w : World) (value : Int) : Nat × World :=
  (w.heap.next,
   { w with heap := ⟨w.heap.next + 1, w.heap.cells ++ [(w.heap.next, value)]⟩,
            trace := w.trace ++ [Event.malloc w.heap.next value] })

/-- `free(p)`; `free(NULL)` does nothing. -/
def World.free (w : World) (p : Nat) : World :=
  if p = 0 then w
  else { w with heap := ⟨w.heap.next, w.heap.cells.filter (fun c => c.1 != p)⟩,
                trace := w.trace ++ [Event.free p] }

/-! ## Menu model (`menu.h`) -/

/-- Modelled from the spec: the `MenuItem` of the menu widget (menu.h is not
among the sources): label, optional icon (identifier of the image struct) and
the pointer-sized callback argument (`0` is `NULL`). -/
structure MenuItem where
  label : String
  icon : Option Nat
  payload : Nat
  deriving DecidableEq, Repr

/-- Modelled from the spec: the `MenuModel` of the menu widget: title, items in
order and the current position (the style attributes are left out). -/
structure Menu where
  title : String
  items : List MenuItem
  position : Nat
  deriving DecidableEq, Repr

/-- Modelled from the spec: `menu_alloc` of the menu widget (menu.c is not among
the sources): a new model with a title, no items, position 0. -/
def menu_alloc (w : World) (title : String) : Menu × World :=
  (⟨title, [], 0⟩, w.emit (Event.menu_alloc title))

/-- Modelled from the spec: `menu_free` destroys the model; the caller releases
the items' icons and payloads first. -/
def menu_free (w : World) (menu : Menu) : World :=
  w.emit (Event.menu_free menu.title)

/-- Modelled from the spec: `length() -> n`. -/
def menu_get_length (menu : Menu) : Nat := menu.items.length

/-- Modelled from the spec: the current position. -/
def menu_get_position (menu : Menu) : Nat := menu.position

/-- Modelled from the spec: `set_position(p)`, keeping `position < length`
(position 0 for an empty model). -/
def menu_set_position (menu : Menu) (p : Nat) : Menu :=
  { menu with position := if menu.items.length < 1 then 0
                          else if p ≥ menu.items.length then menu.items.length - 1
                          else p }

/-- Modelled from the spec: the payload of `get(position)`; `NULL` when there is
no item at that position. -/
def menu_get_callback_args (menu : Menu) (index : Nat) : Nat :=
  match menu.items.get? index with
  | some item => item.payload
  | none => 0

/-- Modelled from the spec: the icon of `get(position)`; `NULL` when there is no
item at that position. -/
def menu_get_icon (menu : Menu) (index : Nat) : Option Nat :=
  match menu.items.get? index with
  | some item => item.icon
  | none => none

/-- Modelled from the spec: `insert(label, icon?, payload)` appends (the source
passes position `-1`); this variant inserts without an icon. -/
def menu_insert_item (menu : Menu) (label : String) (args : Nat) : Menu :=
  { menu with items := menu.items ++ [⟨label, none, args⟩] }

/-- Modelled from the spec: `insert(label, icon?, payload)` appends; ownership of
the icon passes to the model. -/
def menu_insert_item_icon (menu : Menu) (label : String) (args : Nat)
    (icon : Option Nat) : Menu :=
  { menu with items := menu.items ++ [⟨label, icon, args⟩] }

/-- Modelled from the spec: removal by index shifts the following items down;
the model releases the removed item's icon, the payload is left to the caller.
Fails (returns `false`) when there is no item at that index. -/
def menu_remove_item (w : World) (menu : Menu) (index : Nat) : Bool × Menu × World :=
  match menu.items.get? index with
  | none => (false, menu, w)
  | some item =>
    (true, { menu with items := menu.items.eraseIdx index },
     match item.icon with
     | some id => w.emit (Event.menu_release_icon id)
     | none => w)

/-- Modelled from the spec: `navigate(down)`, clamped at `length - 1`. -/
def menu_navigate_next (menu : Menu) : Menu :=
  if menu.items.length < 1 then menu
  else if menu.position + 1 < menu.items.length then
    { menu with position := menu.position + 1 }
  else menu

/-- Modelled from the spec: `navigate(up)`, clamped at 0. -/
def menu_navigate_previous (menu : Menu) : Menu :=
  if menu.items.length < 1 then menu
  else { menu with position := menu.position - 1 }

/-! ## `populate` -/

/-- The base directory `internal_path`. -/
def internal_path : String := "/internal/apps/esp32/"

/-- The result of `snprintf(icon_file_path, 256, "%s/%s/icon.png", internal_path, slug)`:
at most 255 bytes are kept. -/
def icon_file_path (slug : String) : Path :=
  (cBytes internal_path ++ cBytes "/" ++ cBytes slug ++ cBytes "/icon.png").take 255

/-- Lines 31-33: `free` the payload of every item. -/
def populate_free_payloads (w : World) (menu : Menu) : World :=
  (List.range (menu_get_length menu)).foldl
    (fun w index => w.free (menu_get_callback_args menu index)) w

/-- Lines 34-36: `while (menu_remove_item(menu, 0));`.  Every successful
removal shortens the menu, so `length + 1` rounds reach the failing call. -/
def populate_remove_items : Nat → World → Menu → Menu × World
  | 0, w, menu => (menu, w)
  | fuel + 1, w, menu =>
    match menu_remove_item w menu 0 with
    | (true, menu1, w1) => populate_remove_items fuel w1 menu1
    | (false, menu1, w1) => (menu1, w1)

/-- Lines 41-69: the body of the enumeration loop for the record `appfs_fd`. -/
def populate_entry (env : Env) (w : World) (menu : Menu) (appfs_fd : Int) : Menu × World :=
  let info := appfsEntryInfoExt w.reg appfs_fd
  let (args, w1) := w.malloc appfs_fd
  let path := icon_file_path info.name
  if env.fopen path then
    let w2 := w1.emit (Event.fopen path true)
    let (icon, w6) :=
      if env.load_file_to_ram path then
        let w3 := w2.emit (Event.load_file_to_ram path true)
        let (icon, w5) :=
          if env.malloc_pax_buf path then
            let w4 := { w3 with nextIcon := w3.nextIcon + 1 }.emit (Event.malloc_icon w3.nextIcon)
            (some w3.nextIcon,
             w4.emit (Event.pax_decode_png_buf w3.nextIcon (env.pax_decode_png_buf path)))
          else (none, w3)
        (icon, w5.emit (Event.free_icon_data path))
      else (none, w2.emit (Event.load_file_to_ram path false))
    let w7 := w6.emit (Event.fclose path)
    (menu_insert_item_icon menu info.title args icon, w7)
  else
    (menu_insert_item menu info.title args, w1.emit (Event.fopen path false))

/-- Lines 38-70: `while (appfs_fd != APPFS_INVALID_FD)`.  Handles grow strictly
along the enumeration, so `reg.length + 1` rounds reach the sentinel. -/
def populate_loop (env : Env) : Nat → Bool → Int → Menu → World → Bool × Menu × World
  | 0, empty, _, menu, w => (empty, menu, w)
  | fuel + 1, empty, appfs_fd, menu, w =>
    if appfs_fd = APPFS_INVALID_FD then (empty, menu, w)
    else
      let (menu1, w1) := populate_entry env w menu appfs_fd
      populate_loop env fuel false (appfsNextEntry w1.reg appfs_fd) menu1 w1

/-- The function `populate`: clears the menu, rebuilds it from the registry and
restores the position; returns `empty`. -/
def populate (env : Env) (w : World) (menu : Menu) : Bool × Menu × World :=
  let previous_position := menu_get_position menu
  let w1 := populate_free_payloads w menu
  let (menu2, w2) := populate_remove_items (menu_get_length menu + 1) w1 menu
  let (empty, menu3, w3) :=
    populate_loop env (w2.reg.length + 1) true (appfsNextEntry w2.reg APPFS_INVALID_FD) menu2 w2
  (empty, menu_set_position menu3 previous_position, w3.emit (Event.populate_return empty))

/-! ## `context_menu` -/

/-- The enumeration value `CONTEXT_ACTION_NONE`. -/
def CONTEXT_ACTION_NONE : Nat := 0

/-- The enumeration value `CONTEXT_ACTION_UNINSTALL`, stored in the item's
pointer-sized callback argument. -/
def CONTEXT_ACTION_UNINSTALL : Nat := 1

/-- Local variables of `context_menu` that live across loop iterations. -/
structure Context where
  name : String
  menu : Menu
  render : Bool
  quit : Bool
  deriving DecidableEq, Repr

/-- Lines 79-98: look the handle up, build the one-item menu, `render = true`,
`quit = false`. -/
def context_menu_enter (w : World) (fd : Int) : Context × World :=
  let w0 := w.emit (Event.context_menu fd)
  let info := appfsEntryInfoExt w0.reg fd
  let (menu, w1) := menu_alloc w0 info.title
  let menu1 := menu_insert_item menu "Uninstall" CONTEXT_ACTION_UNINSTALL
  (⟨info.name, menu1, true, false⟩, w1)

/-- Lines 100-129: the switch on the received message; returns the updated
locals and the `action` of this iteration. -/
def context_menu_event (c : Context) (m : Option Msg) : Context × Nat :=
  match m with
  | none => (c, CONTEXT_ACTION_NONE)
  | some msg =>
    if msg.state then
      match msg.input with
      | Input.JOYSTICK_DOWN =>
        ({ c with menu := menu_navigate_next c.menu, render := true }, CONTEXT_ACTION_NONE)
      | Input.JOYSTICK_UP =>
        ({ c with menu := menu_navigate_previous c.menu, render := true }, CONTEXT_ACTION_NONE)
      | Input.BUTTON_ACCEPT =>
        (c, menu_get_callback_args c.menu (menu_get_position c.menu))
      | Input.JOYSTICK_PRESS =>
        (c, menu_get_callback_args c.menu (menu_get_position c.menu))
      | Input.BUTTON_HOME => ({ c with quit := true }, CONTEXT_ACTION_NONE)
      | Input.BUTTON_BACK => ({ c with quit := true }, CONTEXT_ACTION_NONE)
      | Input.BUTTON_MENU => (c, CONTEXT_ACTION_NONE)
      | Input.BUTTON_SELECT => (c, CONTEXT_ACTION_NONE)
      | Input.BUTTON_START => (c, CONTEXT_ACTION_NONE)
      | Input.OTHER _ => (c, CONTEXT_ACTION_NONE)
    else (c, CONTEXT_ACTION_NONE)

/-- Lines 100-141: one iteration of the loop of `context_menu`. -/
def context_menu_iteration (env : Env) (w : World) (c : Context) (m : Option Msg) :
    Context × World :=
  let (c1, action) := context_menu_event c m
  let (c2, w2) :=
    if c1.render then ({ c1 with render := false }, w.emit Event.render_context)
    else (c1, w)
  if action = CONTEXT_ACTION_UNINSTALL then
    let w3 := w2.emit (Event.render_message "Uninstalling app...")
    let w4 := w3.emit (Event.appfsDeleteFile c2.name)
    ({ c2 with quit := true }, { w4 with reg := env.appfsDeleteFile c2.name w4.reg })
  else (c2, w2)

/-- Lines 99-142: the loop `while (!quit)`, one input per iteration; stops
with `quit = false` when the inputs run out while it is still waiting. -/
def context_menu_loop (env : Env) : Context → World → List (Option Msg) →
    Context × World × List (Option Msg)
  | c, w, [] => (c, w, [])
  | c, w, m :: rest =>
    let (c1, w1) := context_menu_iteration env w c m
    if c1.quit then (c1, w1, rest) else context_menu_loop env c1 w1 rest

/-- Result of a call of `context_menu` on a list of inputs: the world, the
inputs left over, and whether the call has returned. -/
structure ContextResult where
  world : World
  rest : List (Option Msg)
  returned : Bool
  deriving DecidableEq, Repr

/-- The function `context_menu`. -/
def context_menu (env : Env) (w : World) (fd : Int) (inputs : List (Option Msg)) :
    ContextResult :=
  let (c, w1) := context_menu_enter w fd
  let (c2, w2, rest) := context_menu_loop env c w1 inputs
  if c2.quit then ⟨menu_free w2 c2.menu, rest, true⟩ else ⟨w2, rest, false⟩

/-! ## `menu_launcher_esp32` -/

/-- Local variables of `menu_launcher_esp32` that live across loop iterations;
the two pointers are payload addresses (`0` is `NULL`). -/
structure Launcher where
  menu : Menu
  empty : Bool
  render : Bool
  appfs_fd_to_start : Nat
  quit : Bool
  appfs_fd_context_menu : Nat
  deriving DecidableEq, Repr

/-- Where control is between two inputs. -/
inductive Mode where
  | listing
  | context (c : Context)
  | returned
  | fault
  deriving DecidableEq, Repr

/-- The whole state between two inputs: `listing` waits in the launcher's
`xQueueReceive`, `context c` in that of `context_menu`, `returned` is after the
function's end, `fault` after reading through a pointer to no live block. -/
structure Machine where
  world : World
  st : Launcher
  mode : Mode
  deriving DecidableEq, Repr

/-- Lines 173-202: the switch on the received message. -/
def launcher_event (st : Launcher) (m : Option Msg) : Launcher :=
  match m with
  | none => st
  | some msg =>
    if msg.state then
      match msg.input with
      | Input.JOYSTICK_DOWN => { st with menu := menu_navigate_next st.menu, render := true }
      | Input.JOYSTICK_UP => { st with menu := menu_navigate_previous st.menu, render := true }
      | Input.BUTTON_ACCEPT =>
        { st with appfs_fd_to_start :=
            menu_get_callback_args st.menu (menu_get_position st.menu) }
      | Input.JOYSTICK_PRESS =>
        { st with appfs_fd_to_start :=
            menu_get_callback_args st.menu (menu_get_position st.menu) }
      | Input.BUTTON_HOME => { st with quit := true }
      | Input.BUTTON_BACK => { st with quit := true }
      | Input.BUTTON_MENU =>
        { st with appfs_fd_context_menu :=
            menu_get_callback_args st.menu (menu_get_position st.menu) }
      | Input.BUTTON_SELECT => st
      | Input.BUTTON_START => st
      | Input.OTHER _ => st
    else st

/-- Lines 226-233: destroy every icon, free every payload, free the menu and
destroy the title icon. -/
def launcher_teardown (w : World) (menu : Menu) : World :=
  let w1 := (List.range (menu_get_length menu)).foldl
    (fun w index =>
      let w0 := match menu_get_icon menu index with
        | some id => w.emit (Event.pax_buf_destroy id)
        | none => w
      w0.free (menu_get_callback_args menu index)) w
  (menu_free w1 menu).emit Event.destroy_apps_icon

/-- Lines 211-224 and what follows the loop: render when flagged, boot and
`break` when a launch target is pending, leave the loop when `quit` is set. -/
def launcher_finish (w : World) (st : Launcher) : Machine :=
  let (st1, w1) :=
    if st.render then ({ st with render := false }, w.emit (Event.render_launcher st.empty))
    else (st, w)
  if st1.appfs_fd_to_start ≠ 0 then
    let w2 := w1.emit (Event.deref st1.appfs_fd_to_start)
    match w2.heap.read st1.appfs_fd_to_start with
    | none => ⟨w2, st1, Mode.fault⟩
    | some fd =>
      ⟨launcher_teardown (w2.emit (Event.appfs_boot_app fd)) st1.menu, st1, Mode.returned⟩
  else if st1.quit then ⟨launcher_teardown w1 st1.menu, st1, Mode.returned⟩
  else ⟨w1, st1, Mode.listing⟩

/-- Lines 206-208: after `context_menu` has returned. -/
def launcher_after_context (env : Env) (w : World) (st : Launcher) : Launcher × World :=
  let (empty, menu, w1) := populate env w st.menu
  ({ st with menu := menu, empty := empty, appfs_fd_context_menu := 0, render := true }, w1)

/-- One received input (or timeout) and everything the program does until it
waits for the next one. -/
def step (env : Env) (M : Machine) (m : Option Msg) : Machine :=
  match M.mode with
  | Mode.listing =>
    let st := launcher_event M.st m
    if st.appfs_fd_context_menu ≠ 0 then
      let w0 := M.world.emit (Event.deref st.appfs_fd_context_menu)
      match w0.heap.read st.appfs_fd_context_menu with
      | none => ⟨w0, st, Mode.fault⟩
      | some fd =>
        let (c, w1) := context_menu_enter w0 fd
        ⟨w1, st, Mode.context c⟩
    else launcher_finish M.world st
  | Mode.context c =>
    let (c1, w1) := context_menu_iteration env M.world c m
    if c1.quit then
      let w2 := menu_free w1 c1.menu
      let (st1, w3) := launcher_after_context env w2 M.st
      launcher_finish w3 st1
    else ⟨w1, M.st, Mode.context c1⟩
  | Mode.returned => M
  | Mode.fault => M

/-- The world at the call of `menu_launcher_esp32`: no payload block, no icon,
an empty trace. -/
def initialWorld (reg : Registry) : World :=
  ⟨reg, ⟨1, []⟩, 0, []⟩

/-- Lines 148-171: allocate the menu, decode the title icon, `populate`,
`render = true`, both pointers `NULL`, `quit = false`. -/
def launcher_init (env : Env) (w : World) : Machine :=
  let (menu, w1) := menu_alloc w "ESP32 apps"
  let w2 := w1.emit Event.decode_apps_icon
  let (empty, menu1, w3) := populate env w2 menu
  ⟨w3, ⟨menu1, empty, true, 0, false, 0⟩, Mode.listing⟩

/-- Run from a state over a list of inputs. -/
def runFrom (env : Env) (M : Machine) (inputs : List (Option Msg)) : Machine :=
  inputs.foldl (step env) M

/-- The function `menu_launcher_esp32` on a registry and a list of inputs. -/
def menu_launcher_esp32 (env : Env) (reg : Registry) (inputs : List (Option Msg)) : Machine :=
  runFrom env (launcher_init env (initialWorld reg)) inputs

/-! ## Observers of the trace -/

/-- The handles `populate` passes through its loop body, one after the other. -/
def populate_entries (env : Env) (menu : Menu) (w : World) (fds : List Int) : Menu × World :=
  fds.foldl (fun s fd => populate_entry env s.2 s.1 fd) (menu, w)

/-- Heap discipline, one call at a time.  The state is the list of addresses
ever allocated and the list of live ones; `none` records a violation: an
address allocated twice, a block freed while not live (double free), or a read
through a pointer to a block that is not live (use after free). -/
def heapStep (s : Option (List Nat × List Nat)) (e : Event) : Option (List Nat × List Nat) :=
  match s with
  | none => none
  | some (ever, live) =>
    match e with
    | Event.malloc a _ => if a ∈ ever then none else some (ever ++ [a], live ++ [a])
    | Event.free a => if a ∈ live then some (ever, live.filter (fun b => b != a)) else none
    | Event.deref a => if a ∈ live then some (ever, live) else none
    | _ => some (ever, live)

/-- Heap discipline of a whole trace, from the empty heap. -/
def heapRun (tr : List Event) : Option (List Nat × List Nat) :=
  tr.foldl heapStep (some ([], []))

/-- Frames against `populate` results: the state is the result of the most
recent `populate` and whether every frame so far showed the empty-state
message exactly when that result was `true`. -/
def frameStep (s : Option Bool × Bool) (e : Event) : Option Bool × Bool :=
  match e with
  | Event.populate_return b => (some b, s.2)
  | Event.render_launcher m => (s.1, s.2 && (s.1 == some m))
  | _ => s

/-- Whether every launcher frame of the trace agrees with the most recent
`populate` result before it. -/
def framesFollowPopulate (tr : List Event) : Bool :=
  (tr.foldl frameStep (none, true)).2

/-- The `malloc` of a payload block (line 46). -/
def Event.isPayloadMalloc : Event → Bool
  | Event.malloc _ _ => true
  | _ => false

/-- The `free` of a payload block (lines 32 and 229).  The only other `free`
call of the source (line 62) is on the file buffer. -/
def Event.isPayloadFree : Event → Bool
  | Event.free _ => true
  | _ => false

/-- The `malloc` of an image struct (`pax_buf_t`, line 58). -/
def Event.isStructMalloc : Event → Bool
  | Event.malloc_icon _ => true
  | _ => false

/-- The two `malloc` calls that `populate` makes for an item: the payload block
and the image struct. -/
def Event.isMalloc : Event → Bool
  | Event.malloc _ _ => true
  | Event.malloc_icon _ => true
  | _ => false

/-- Calls that release something an item holds: the `free` of a payload block,
the release of an icon by the menu model, `pax_buf_destroy` on an icon. -/
def Event.isRelease : Event → Bool
  | Event.free _ => true
  | Event.menu_release_icon _ => true
  | Event.pax_buf_destroy _ => true
  | _ => false

/-- Calls of the boot collaborator. -/
def Event.isBoot : Event → Bool
  | Event.appfs_boot_app _ => true
  | _ => false

/-- Calls of `appfsDeleteFile`. -/
def Event.isDelete : Event → Bool
  | Event.appfsDeleteFile _ => true
  | _ => false

/-- Calls that start a nested `context_menu`. -/
def Event.isContextMenu : Event → Bool
  | Event.context_menu _ => true
  | _ => false

/-- The calls of the teardown loop for a list of items: destroy the icon when
there is one, then free the payload. -/
def teardownEvents (items : List MenuItem) : List Event :=
  items.flatMap (fun item =>
    (match item.icon with
     | some id => [Event.pax_buf_destroy id]
     | none => []) ++ [Event.free item.payload])

/-! ## Invariants -/

/-- Heap invariant of a world: the trace obeys the heap discipline, its live
addresses are exactly the cells of the heap, they are pairwise different,
non-null, and below the next fresh address, as is every address ever used. -/
def HeapInv (w : World) : Prop :=
  (∃ ever, heapRun w.trace = some (ever, w.heap.cells.map Prod.fst) ∧
    ∀ a ∈ ever, a < w.heap.next) ∧
  (w.heap.cells.map Prod.fst).Nodup ∧
  (∀ a ∈ w.heap.cells.map Prod.fst, 0 < a ∧ a < w.heap.next) ∧
  0 < w.heap.next

/-- The menu owns the heap: the payloads of its items are the live blocks, in
order. -/
def Owns (menu : Menu) (w : World) : Prop :=
  menu.items.map MenuItem.payload = w.heap.cells.map Prod.fst

/-- Calls that the heap discipline looks at. -/
def Event.isHeap : Event → Bool
  | Event.malloc _ _ => true
  | Event.free _ => true
  | Event.deref _ => true
  | _ => false

/-- Calls of the icon-loading block of `populate` (lines 52-64). -/
def Event.isIconLoad : Event → Bool
  | Event.fopen _ _ => true
  | Event.fclose _ => true
  | Event.load_file_to_ram _ _ => true
  | Event.free_icon_data _ => true
  | Event.malloc_icon _ => true
  | Event.pax_decode_png_buf _ _ => true
  | _ => false

/-- Calls made by the enumeration loop of `populate`: the payload allocation
and the icon-loading block. -/
def Event.isPopulateEntry : Event → Bool
  | Event.malloc _ _ => true
  | e => e.isIconLoad

/-- The calls with which `populate` clears a list of items: it frees every
payload, then the menu model releases every icon. -/
def clearEvents (items : List MenuItem) : List Event :=
  items.map (fun item => Event.free item.payload) ++
    (items.filterMap MenuItem.icon).map Event.menu_release_icon

/-- Number of items that carry an icon. -/
def iconCount (items : List MenuItem) : Nat :=
  (items.filterMap MenuItem.icon).length

/-- Calls that the frame observer looks at. -/
def Event.isFrame : Event → Bool
  | Event.populate_return _ => true
  | Event.render_launcher _ => true
  | _ => false

/-- Calls that no observer of this file looks at. -/
def Event.isNeutral (e : Event) : Bool :=
  !(e.isHeap || e.isFrame || e.isBoot)

/-- What holds of the world and the menu whenever the launcher holds its menu:
the heap invariant, the menu owns the heap, the blocks store the handles of the
enumerated records and the items carry their titles, every frame so far agrees
with the most recent `populate` result, which is `empty`, no boot call has been
made, the payload blocks allocated and not yet freed are as many as the items,
and the position is inside the menu. -/
def Core (w : World) (menu : Menu) (empty : Bool) : Prop :=
  HeapInv w ∧ Owns menu w ∧
  w.heap.cells.map Prod.snd = (appEntries w.reg).map Prod.fst ∧
  menu.items.map MenuItem.label = (appEntries w.reg).map (fun p => p.2.title) ∧
  w.trace.foldl frameStep (none, true) = (some empty, true) ∧
  empty = (appEntries w.reg).isEmpty ∧
  w.trace.countP Event.isBoot = 0 ∧
  w.trace.countP Event.isPayloadMalloc =
    w.trace.countP Event.isPayloadFree + menu.items.length ∧
  (menu.position < menu.items.length ∨ menu.items = [])

/-- What holds while the launcher waits for input in its own loop: `Core`, both
pending pointers are `NULL` and `quit` is unset. -/
def Held (w : World) (st : Launcher) : Prop :=
  Core w st.menu st.empty ∧
  st.appfs_fd_to_start = 0 ∧ st.appfs_fd_context_menu = 0 ∧ st.quit = false

/-- What holds after `menu_launcher_esp32` has returned. -/
def Done (w : World) : Prop :=
  HeapInv w ∧ w.heap.cells = [] ∧
  (w.trace.foldl frameStep (none, true)).2 = true ∧
  w.trace.countP Event.isBoot ≤ 1 ∧
  w.trace.countP Event.isPayloadMalloc = w.trace.countP Event.isPayloadFree

/-- The invariant of the machine. -/
def Inv (M : Machine) : Prop :=
  match M.mode with
  | Mode.listing => Held M.world M.st
  | Mode.context _ =>
    Core M.world M.st.menu M.st.empty ∧ M.st.appfs_fd_to_start = 0 ∧ M.st.quit = false
  | Mode.returned => Done M.world
  | Mode.fault => False

/-- Inputs on which the launcher loop takes no action: a timeout, a message
with `state == false`, a pressed select or start, a pressed input of another
kind. -/
def nonActionable (m : Option Msg) : Bool :=
  match m with
  | none => true
  | some msg =>
    !msg.state ||
      (match msg.input with
       | Input.BUTTON_SELECT => true
       | Input.BUTTON_START => true
       | Input.OTHER _ => true
       | _ => false)

/-- A pressed accept or joystick-press. -/
def isConfirm (m : Option Msg) : Bool :=
  match m with
  | some ⟨Input.BUTTON_ACCEPT, true⟩ => true
  | some ⟨Input.JOYSTICK_PRESS, true⟩ => true
  | _ => false

/-- A pressed home or back. -/
def isHomeOrBack (m : Option Msg) : Bool :=
  match m with
  | some ⟨Input.BUTTON_HOME, true⟩ => true
  | some ⟨Input.BUTTON_BACK, true⟩ => true
  | _ => false

/-- The locals of `context_menu` at the head of its loop: the name reported for
the handle, the one-item menu at position 0, `quit` unset. -/
def CtxReady (c : Context) (name title : String) : Prop :=
  c.name = name ∧
  c.menu = ⟨title, [⟨"Uninstall", none, CONTEXT_ACTION_UNINSTALL⟩], 0⟩ ∧
  c.quit = false

/-- The part of a trace before its first boot call. -/
def beforeBoot (tr : List Event) : List Event :=
  tr.takeWhile (fun e => !e.isBoot)

/-- The part of a trace from its first boot call on. -/
def afterBoot (tr : List Event) : List Event :=
  tr.dropWhile (fun e => !e.isBoot)

/-! ## Concrete inputs -/

/-- Modelled from the spec: the registry collaborator's `delete(name)`; the
slot of every record with that name is emptied. -/
def deleteByName (name : String) (reg : Registry) : Registry :=
  reg.map (fun slot =>
    match slot with
    | some a => if a.name = name then none else some a
    | none => none)

/-- An environment without icon files. -/
def envNoIcons : Env :=
  ⟨fun _ => false, fun _ => false, fun _ => false, fun _ => false, deleteByName⟩

/-- An environment where every icon file opens and loads, the image struct is
allocated, and the PNG decoder fails. -/
def envBadPng : Env :=
  ⟨fun _ => true, fun _ => true, fun _ => true, fun _ => false, deleteByName⟩

/-- An environment where every icon file opens, loads and decodes. -/
def envGoodPng : Env :=
  ⟨fun _ => true, fun _ => true, fun _ => true, fun _ => true, deleteByName⟩

/-- An environment where every icon file opens and reading it into memory
fails. -/
def envNoLoad : Env :=
  ⟨fun _ => true, fun _ => false, fun _ => false, fun _ => false, deleteByName⟩

/-- An environment where every icon file opens and loads and the allocation of
the image struct fails. -/
def envNoStruct : Env :=
  ⟨fun _ => true, fun _ => true, fun _ => false, fun _ => false, deleteByName⟩

/-- An environment without icon files where `appfsDeleteFile` fails: it leaves
the registry as it was. -/
def envDeleteFails : Env :=
  ⟨fun _ => false, fun _ => false, fun _ => false, fun _ => false, fun _ reg => reg⟩

/-- A registry with one record. -/
def regOne : Registry := [some ⟨"a", "App A", 1⟩]

/-- The registry of the two-application scene. -/
def regTwo : Registry := [some ⟨"a", "App A", 1⟩, some ⟨"b", "App B", 1⟩]

/-- A pressed input of the given kind. -/
def pressed (i : Input) : Option Msg := some ⟨i, true⟩

/-- The same call of `context_menu` where the deletion fails. -/
def uninstallFails : ContextResult :=
  context_menu envDeleteFails (initialWorld regTwo) 1
    [pressed Input.JOYSTICK_DOWN, none, pressed Input.BUTTON_ACCEPT]

/-- The launcher on the two-application registry after one pressed joystick-down. -/
def afterDown : Machine :=
  menu_launcher_esp32 envNoIcons regTwo [pressed Input.JOYSTICK_DOWN]

/-- The launcher's menu right after `menu_alloc`. -/
def freshMenu : Menu := ⟨"ESP32 apps", [], 0⟩

/-- The call of `context_menu` for the second record of the two-application
registry on a joystick-down, a timeout, then a pressed accept. -/
def uninstallSecond : ContextResult :=
  context_menu envNoIcons (initialWorld regTwo) 1
    [pressed Input.JOYSTICK_DOWN, none, pressed Input.BUTTON_ACCEPT]

/-! ## Lemmas: the registry cursor and the enumeration loop -/

theorem scanEntry_ne_invalid_of_nat (i : Nat) : ((i : Int) = APPFS_INVALID_FD) = False := by
  simp only [APPFS_INVALID_FD, eq_iff_iff, iff_false]
  omega

theorem appfsNextEntry_nat (reg : Registry) (i : Nat) :
    appfsNextEntry reg (i : Int) = scanEntry (reg.drop (i + 1)) (i + 1) := by
  have h : ((i : Int) + 1).toNat = i + 1 := by omega
  simp [appfsNextEntry, h]

theorem appfsNextEntry_invalid (reg : Registry) :
    appfsNextEntry reg APPFS_INVALID_FD = scanEntry reg 0 := by
  simp [appfsNextEntry, APPFS_INVALID_FD]

theorem scanEntry_eq_invalid_iff (suf : List (Option AppInfo)) (i : Nat) :
    scanEntry suf i = APPFS_INVALID_FD ↔ entriesFrom suf i = [] := by
  induction suf generalizing i with
  | nil => simp [scanEntry, entriesFrom]
  | cons x rest ih =>
    cases x with
    | none => simpa [scanEntry, entriesFrom] using ih (i + 1)
    | some a => simp [scanEntry, entriesFrom, scanEntry_ne_invalid_of_nat]

theorem populate_entry_reg (env : Env) (w : World) (menu : Menu) (fd : Int) :
    (populate_entry env w menu fd).2.reg = w.reg := by
  unfold populate_entry
  simp only [World.malloc, World.emit]
  split_ifs <;> rfl

/-- With more fuel than table slots left, the enumeration loop reaches the
sentinel: it runs the loop body once for every record, in order. -/
theorem populate_loop_eq (env : Env) (suf : List (Option AppInfo)) :
    ∀ (i fuel : Nat) (empty : Bool) (menu : Menu) (w : World),
      w.reg.drop i = suf → suf.length < fuel →
      populate_loop env fuel empty (scanEntry suf i) menu w =
        (empty && (entriesFrom suf i).isEmpty,
         populate_entries env menu w ((entriesFrom suf i).map Prod.fst)) := by
  induction suf with
  | nil =>
    intro i fuel empty menu w _ hf
    cases fuel with
    | zero => simp at hf
    | succ n => simp [populate_loop, scanEntry, entriesFrom, populate_entries]
  | cons x rest ih =>
    intro i fuel empty menu w hd hf
    have hrest : w.reg.drop (i + 1) = rest := by
      have := congrArg List.tail hd
      simpa [List.tail_drop] using this
    cases x with
    | none =>
      simp only [scanEntry, entriesFrom]
      exact ih (i + 1) fuel empty menu w hrest (by simp at hf; omega)
    | some a =>
      cases fuel with
      | zero => simp at hf
      | succ n =>
        simp only [scanEntry, entriesFrom, populate_loop, scanEntry_ne_invalid_of_nat,
          if_false, List.map_cons, List.isEmpty_cons, Bool.and_false]
        have hreg := populate_entry_reg env w menu (i : Int)
        rw [appfsNextEntry_nat, hreg, hrest]
        have hrest2 : (populate_entry env w menu (i : Int)).2.reg.drop (i + 1) = rest := by
          rw [hreg]; exact hrest
        rw [ih (i + 1) n false _ _ hrest2 (by simp at hf; omega)]
        simp [populate_entries]

/-! ## Lemmas: the clearing loops of `populate` and the teardown loop -/

theorem range_map_callback_args (menu : Menu) :
    (List.range (menu_get_length menu)).map (menu_get_callback_args menu) =
      menu.items.map MenuItem.payload := by
  apply List.ext_getElem
  · simp [menu_get_length]
  · intro n h1 h2
    simp only [List.length_map, List.length_range, menu_get_length] at h1
    simp [menu_get_callback_args, List.getElem?_eq_getElem h1]

theorem range_map_icon_args (menu : Menu) :
    (List.range (menu_get_length menu)).map
        (fun i => (menu_get_icon menu i, menu_get_callback_args menu i)) =
      menu.items.map (fun item => (item.icon, item.payload)) := by
  apply List.ext_getElem
  · simp [menu_get_length]
  · intro n h1 h2
    simp only [List.length_map, List.length_range, menu_get_length] at h1
    simp [menu_get_callback_args, menu_get_icon, List.getElem?_eq_getElem h1]

theorem populate_free_payloads_eq (w : World) (menu : Menu) :
    populate_free_payloads w menu = (menu.items.map MenuItem.payload).foldl World.free w := by
  rw [← range_map_callback_args, List.foldl_map]
  rfl

/-- With more fuel than items, the removal loop reaches the failing call: it
empties the menu, and the model releases every icon. -/
theorem populate_remove_items_eq (title : String) (position : Nat) (items : List MenuItem) :
    ∀ (fuel : Nat) (w : World), items.length < fuel →
      populate_remove_items fuel w ⟨title, items, position⟩ =
        (⟨title, [], position⟩,
         { w with trace := w.trace ++
            (items.filterMap MenuItem.icon).map Event.menu_release_icon }) := by
  induction items with
  | nil =>
    intro fuel w hf
    cases fuel with
    | zero => simp at hf
    | succ n => simp [populate_remove_items, menu_remove_item]
  | cons x rest ih =>
    intro fuel w hf
    cases fuel with
    | zero => simp at hf
    | succ n =>
      have hn : rest.length < n := by simp at hf; omega
      cases hx : x.icon with
      | none =>
        simp [populate_remove_items, menu_remove_item, hx, ih n w hn]
      | some id =>
        simp [populate_remove_items, menu_remove_item, hx, ih n _ hn, World.emit]

theorem foldl_free_reg (ps : List Nat) (w : World) :
    (ps.foldl World.free w).reg = w.reg ∧ (ps.foldl World.free w).nextIcon = w.nextIcon ∧
      (ps.foldl World.free w).heap.next = w.heap.next := by
  induction ps generalizing w with
  | nil => simp
  | cons p rest ih =>
    simp only [List.foldl_cons]
    obtain ⟨h1, h2, h3⟩ := ih (w.free p)
    rw [h1, h2, h3]
    unfold World.free
    split_ifs <;> simp

/-- The function `populate` with both loops run to their end. -/
theorem populate_eq (env : Env) (w : World) (menu : Menu) :
    populate env w menu =
      let w1 := (menu.items.map MenuItem.payload).foldl World.free w
      let w2 := { w1 with trace := w1.trace ++
            (menu.items.filterMap MenuItem.icon).map Event.menu_release_icon }
      let r := populate_entries env ⟨menu.title, [], menu.position⟩ w2
        ((appEntries w.reg).map Prod.fst)
      ((appEntries w.reg).isEmpty, menu_set_position r.1 menu.position,
       r.2.emit (Event.populate_return (appEntries w.reg).isEmpty)) := by
  obtain ⟨title, items, position⟩ := menu
  have hreg := (foldl_free_reg (items.map MenuItem.payload) w).1
  simp only [populate, populate_free_payloads_eq, menu_get_length, menu_get_position,
    populate_remove_items_eq title position items (items.length + 1) _ (Nat.lt_succ_self _),
    appfsNextEntry_invalid]
  rw [populate_loop_eq env _ 0 _ true _ _ (by simp) (by simp)]
  simp [appEntries, hreg]

/-! ## Lemmas: one round of the enumeration loop -/

theorem populate_entry_spec (env : Env) (w : World) (menu : Menu) (fd : Int) :
    ∃ (icon : Option Nat) (evs : List Event),
      populate_entry env w menu fd =
        (⟨menu.title,
          menu.items ++ [⟨(appfsEntryInfoExt w.reg fd).title, icon, w.heap.next⟩],
          menu.position⟩,
         ⟨w.reg, ⟨w.heap.next + 1, w.heap.cells ++ [(w.heap.next, fd)]⟩,
          w.nextIcon + (if icon.isSome then 1 else 0),
          w.trace ++ Event.malloc w.heap.next fd :: evs⟩) ∧
      (∀ e ∈ evs, e.isIconLoad = true) ∧
      evs.countP Event.isStructMalloc = (if icon.isSome then 1 else 0) ∧
      (env.fopen (icon_file_path (appfsEntryInfoExt w.reg fd).name) = false → icon = none) := by
  unfold populate_entry
  simp only [World.malloc, World.emit, menu_insert_item, menu_insert_item_icon]
  generalize icon_file_path (appfsEntryInfoExt w.reg fd).name = path
  by_cases h1 : env.fopen path = true
  · by_cases h2 : env.load_file_to_ram path = true
    · by_cases h3 : env.malloc_pax_buf path = true
      · refine ⟨some w.nextIcon,
          [Event.fopen path true, Event.load_file_to_ram path true,
           Event.malloc_icon w.nextIcon,
           Event.pax_decode_png_buf w.nextIcon (env.pax_decode_png_buf path),
           Event.free_icon_data path, Event.fclose path], ?_, ?_, ?_, ?_⟩
        · simp [h1, h2, h3]
        · intro e he
          simp only [List.mem_cons, List.mem_singleton, List.not_mem_nil, or_false] at he
          rcases he with h | h | h | h | h | h <;> subst h <;> rfl
        · simp [Event.isStructMalloc]
        · intro h; simp [h] at h1
      · refine ⟨none,
          [Event.fopen path true, Event.load_file_to_ram path true,
           Event.free_icon_data path, Event.fclose path], ?_, ?_, ?_, ?_⟩
        · simp [h1, h2, h3]
        · intro e he
          simp only [List.mem_cons, List.mem_singleton, List.not_mem_nil, or_false] at he
          rcases he with h | h | h | h <;> subst h <;> rfl
        · simp [Event.isStructMalloc]
        · intro _; rfl
    · refine ⟨none,
        [Event.fopen path true, Event.load_file_to_ram path false, Event.fclose path],
        ?_, ?_, ?_, ?_⟩
      · simp [h1, h2]
      · intro e he
        simp only [List.mem_cons, List.mem_singleton, List.not_mem_nil, or_false] at he
        rcases he with h | h | h <;> subst h <;> rfl
      · simp [Event.isStructMalloc]
      · intro _; rfl
  · refine ⟨none, [Event.fopen path false], ?_, ?_, ?_, ?_⟩
    · simp [h1]
    · intro e he
      simp only [List.mem_cons, List.mem_singleton, List.not_mem_nil, or_false] at he
      subst he; rfl
    · simp [Event.isStructMalloc]
    · intro _; rfl

/-! ## Lemmas: observers on the calls of the enumeration loop -/

theorem heapStep_iconLoad (s : Option (List Nat × List Nat)) (e : Event)
    (h : e.isIconLoad = true) : heapStep s e = s := by
  cases s with
  | none => rfl
  | some p => cases e <;> simp_all [heapStep, Event.isIconLoad]

theorem foldl_heapStep_iconLoad (evs : List Event) (s : Option (List Nat × List Nat))
    (h : ∀ e ∈ evs, e.isIconLoad = true) : evs.foldl heapStep s = s := by
  induction evs generalizing s with
  | nil => rfl
  | cons e rest ih =>
    simp only [List.foldl_cons]
    rw [heapStep_iconLoad s e (h e (by simp)), ih s (fun e he => h e (by simp [he]))]

theorem countP_eq_zero_of_forall (p : Event → Bool) (evs : List Event)
    (h : ∀ e ∈ evs, p e = false) : evs.countP p = 0 := by
  rw [List.countP_eq_zero]
  intro e he
  simp [h e he]

theorem isIconLoad_not_payload (e : Event) (h : e.isIconLoad = true) :
    e.isPayloadMalloc = false := by
  cases e <;> simp_all [Event.isIconLoad, Event.isPayloadMalloc]

theorem isPopulateEntry_of_isIconLoad (e : Event) (h : e.isIconLoad = true) :
    e.isPopulateEntry = true := by
  cases e <;> simp_all [Event.isPopulateEntry, Event.isIconLoad]

theorem iconCount_cons (label : String) (icon : Option Nat) (payload : Nat)
    (items : List MenuItem) :
    iconCount (⟨label, icon, payload⟩ :: items) =
      (if icon.isSome then 1 else 0) + iconCount items := by
  cases icon with
  | none => simp [iconCount, List.filterMap_cons]
  | some id => simp [iconCount, List.filterMap_cons]; omega

theorem populate_entries_spec (env : Env) (fds : List Int) :
    ∀ (menu : Menu) (w : World),
    ∃ (newItems : List MenuItem) (newCells : List (Nat × Int)) (evs : List Event),
      populate_entries env menu w fds =
        (⟨menu.title, menu.items ++ newItems, menu.position⟩,
         ⟨w.reg, ⟨w.heap.next + fds.length, w.heap.cells ++ newCells⟩,
          w.nextIcon + iconCount newItems, w.trace ++ evs⟩) ∧
      newItems.map MenuItem.payload = List.range' w.heap.next fds.length ∧
      newCells.map Prod.fst = List.range' w.heap.next fds.length ∧
      newCells.map Prod.snd = fds ∧
      newItems.map MenuItem.label = fds.map (fun fd => (appfsEntryInfoExt w.reg fd).title) ∧
      (∀ e ∈ evs, e.isPopulateEntry = true) ∧
      (∀ ever live, (∀ a ∈ ever, a < w.heap.next) →
        evs.foldl heapStep (some (ever, live)) =
          some (ever ++ List.range' w.heap.next fds.length,
                live ++ List.range' w.heap.next fds.length)) ∧
      (evs.countP Event.isPayloadMalloc = fds.length ∧
        evs.countP Event.isStructMalloc = iconCount newItems) ∧
      ((∀ fd ∈ fds, env.fopen (icon_file_path (appfsEntryInfoExt w.reg fd).name) = false) →
        ∀ item ∈ newItems, item.icon = none) := by
  induction fds with
  | nil =>
    intro menu w
    exact ⟨[], [], [], by simp [populate_entries, iconCount], rfl, rfl, rfl, rfl,
      by simp, by simp, by simp [iconCount], by simp⟩
  | cons fd rest ih =>
    intro menu w
    obtain ⟨icon, evs1, h1, hload, hacq, hnone⟩ := populate_entry_spec env w menu fd
    have hstep : populate_entries env menu w (fd :: rest) =
        populate_entries env (populate_entry env w menu fd).1 (populate_entry env w menu fd).2
          rest := by
      simp [populate_entries]
    rw [hstep, h1]
    obtain ⟨items2, cells2, evs2, h2, hp, hc, hv, hl, hcls, hheap, hcnt, hic⟩ := ih
      ⟨menu.title, menu.items ++ [⟨(appfsEntryInfoExt w.reg fd).title, icon, w.heap.next⟩],
        menu.position⟩
      ⟨w.reg, ⟨w.heap.next + 1, w.heap.cells ++ [(w.heap.next, fd)]⟩,
        w.nextIcon + (if icon.isSome then 1 else 0),
        w.trace ++ Event.malloc w.heap.next fd :: evs1⟩
    simp only at h2 hp hc hv hl hheap hic
    refine ⟨⟨(appfsEntryInfoExt w.reg fd).title, icon, w.heap.next⟩ :: items2,
      (w.heap.next, fd) :: cells2, Event.malloc w.heap.next fd :: (evs1 ++ evs2),
      ?_, ?_, ?_, ?_, ?_, ?_, ?_, ?_, ?_⟩
    · rw [h2]
      simp only [List.length_cons, iconCount_cons, List.append_assoc, List.singleton_append,
        List.cons_append]
      simp only [List.nil_append, Nat.add_assoc, Nat.add_comm 1 rest.length]
    · simp [hp, List.range'_succ]
    · simp [hc, List.range'_succ]
    · simp [hv]
    · simp [hl]
    · intro e he
      simp only [List.mem_cons, List.mem_append] at he
      rcases he with h | h | h
      · subst h; rfl
      · exact isPopulateEntry_of_isIconLoad e (hload e h)
      · exact hcls e h
    · intro ever live hev
      have hfresh : w.heap.next ∉ ever := fun hm => Nat.lt_irrefl _ (hev _ hm)
      simp only [List.foldl_cons, List.foldl_append, heapStep, hfresh, if_false]
      rw [foldl_heapStep_iconLoad evs1 _ hload, hheap]
      · simp [List.range'_succ]
      · intro a ha
        simp only [List.mem_append, List.mem_singleton] at ha
        rcases ha with h | h
        · have := hev a h; omega
        · omega
    · constructor
      · simp only [List.countP_cons, List.countP_append, hcnt.1,
          countP_eq_zero_of_forall Event.isPayloadMalloc evs1
            (fun e he => isIconLoad_not_payload e (hload e he)),
          Event.isPayloadMalloc, List.length_cons, if_true]
        omega
      · simp only [List.countP_cons, List.countP_append, hacq, hcnt.2, iconCount_cons,
          Event.isStructMalloc]
        simp
    · intro hall item hitem
      simp only [List.mem_cons] at hitem
      rcases hitem with h | h
      · subst h
        exact hnone (hall fd (by simp))
      · exact hic (fun fd2 hfd2 => hall fd2 (by simp [hfd2])) item h

/-! ## Lemmas: freeing every payload -/

theorem filter_ne_self_of_not_mem (p : Nat) (l : List Nat) (h : p ∉ l) :
    l.filter (fun b => b != p) = l := by
  rw [List.filter_eq_self]
  intro a ha
  have : a ≠ p := fun e => h (e ▸ ha)
  simpa using this

theorem foldl_free_eq (ps : List Nat) :
    ∀ (w : World), w.heap.cells.map Prod.fst = ps → ps.Nodup → (∀ p ∈ ps, p ≠ 0) →
      ps.foldl World.free w =
        ⟨w.reg, ⟨w.heap.next, []⟩, w.nextIcon, w.trace ++ ps.map Event.free⟩ := by
  induction ps with
  | nil =>
    intro w h _ _
    have hc : w.heap.cells = [] := by simpa using h
    obtain ⟨reg, ⟨next, cells⟩, nextIcon, trace⟩ := w
    simp at hc
    simp [hc]
  | cons p rest ih =>
    intro w h hnd h0
    obtain ⟨reg, ⟨next, cells⟩, nextIcon, trace⟩ := w
    cases cells with
    | nil => simp at h
    | cons c cs =>
      simp only [List.map_cons, List.cons.injEq] at h
      obtain ⟨hc, hcs⟩ := h
      have hp0 : p ≠ 0 := h0 p (by simp)
      have hnotin : p ∉ rest := (List.nodup_cons.mp hnd).1
      have hfilter : cs.filter (fun c => c.1 != p) = cs := by
        rw [List.filter_eq_self]
        intro a ha
        have hm : a.1 ∈ rest := by rw [← hcs]; exact List.mem_map_of_mem _ ha
        have : a.1 ≠ p := fun e => hnotin (e ▸ hm)
        simpa using this
      simp only [List.foldl_cons, World.free, hp0, if_false]
      rw [List.filter_cons]
      simp only [hc, bne_self_eq_false, Bool.false_eq_true, if_false, hfilter]
      rw [ih _ hcs (List.nodup_cons.mp hnd).2 (fun q hq => h0 q (by simp [hq]))]
      simp

theorem foldl_heapStep_free (ps : List Nat) (ever : List Nat) (hnd : ps.Nodup) :
    (ps.map Event.free).foldl heapStep (some (ever, ps)) = some (ever, []) := by
  induction ps with
  | nil => rfl
  | cons p rest ih =>
    have hnotin : p ∉ rest := (List.nodup_cons.mp hnd).1
    simp only [List.map_cons, List.foldl_cons, heapStep, List.mem_cons, true_or, if_true,
      List.filter_cons, bne_self_eq_false, Bool.false_eq_true, if_false,
      filter_ne_self_of_not_mem p rest hnotin]
    exact ih (List.nodup_cons.mp hnd).2

theorem entriesFrom_info (reg : Registry) (suf : List (Option AppInfo)) :
    ∀ (i : Nat), reg.drop i = suf →
      (entriesFrom suf i).map (fun p => appfsEntryInfoExt reg p.1) =
        (entriesFrom suf i).map Prod.snd := by
  induction suf with
  | nil => intro i _; rfl
  | cons x rest ih =>
    intro i hd
    have hrest : reg.drop (i + 1) = rest := by
      have := congrArg List.tail hd
      simpa [List.tail_drop] using this
    cases x with
    | none => simpa [entriesFrom] using ih (i + 1) hrest
    | some a =>
      have hget : reg[i]? = some (some a) := by
        have := congrArg List.head? hd
        simpa [List.head?_drop] using this
      have hi : ¬ ((i : Int) < 0) := by omega
      simp only [entriesFrom, List.map_cons, ih (i + 1) hrest, List.cons.injEq, and_true]
      simp [appfsEntryInfoExt, hi, hget]

theorem appEntries_info (reg : Registry) :
    (appEntries reg).map (fun p => appfsEntryInfoExt reg p.1) = (appEntries reg).map Prod.snd :=
  entriesFrom_info reg reg 0 (by simp)

/-! ## Lemmas: `populate` as a whole -/

/-- What `populate` does to a world that satisfies the heap invariant and a menu
that owns the heap. -/
theorem populate_spec (env : Env) (w : World) (menu : Menu) (hinv : HeapInv w)
    (hown : Owns menu w) :
    ∃ (newItems : List MenuItem) (newCells : List (Nat × Int)) (evs : List Event),
      populate env w menu =
        ((appEntries w.reg).isEmpty,
         menu_set_position ⟨menu.title, newItems, menu.position⟩ menu.position,
         ⟨w.reg, ⟨w.heap.next + (appEntries w.reg).length, newCells⟩,
          w.nextIcon + iconCount newItems,
          w.trace ++ clearEvents menu.items ++ evs ++
            [Event.populate_return (appEntries w.reg).isEmpty]⟩) ∧
      newItems.map MenuItem.payload = List.range' w.heap.next (appEntries w.reg).length ∧
      newCells.map Prod.fst = List.range' w.heap.next (appEntries w.reg).length ∧
      newCells.map Prod.snd = (appEntries w.reg).map Prod.fst ∧
      newItems.map MenuItem.label = (appEntries w.reg).map (fun p => p.2.title) ∧
      (∀ e ∈ evs, e.isPopulateEntry = true) ∧
      (∀ ever live, (∀ a ∈ ever, a < w.heap.next) →
        evs.foldl heapStep (some (ever, live)) =
          some (ever ++ List.range' w.heap.next (appEntries w.reg).length,
                live ++ List.range' w.heap.next (appEntries w.reg).length)) ∧
      (evs.countP Event.isPayloadMalloc = (appEntries w.reg).length ∧
        evs.countP Event.isStructMalloc = iconCount newItems) ∧
      ((∀ p ∈ appEntries w.reg, env.fopen (icon_file_path p.2.name) = false) →
        ∀ item ∈ newItems, item.icon = none) := by
  have hps : w.heap.cells.map Prod.fst = menu.items.map MenuItem.payload := hown.symm
  have hnd : (menu.items.map MenuItem.payload).Nodup := hps ▸ hinv.2.1
  have h0 : ∀ p ∈ menu.items.map MenuItem.payload, p ≠ 0 := by
    intro p hp
    have := (hinv.2.2.1 p (hps ▸ hp)).1
    omega
  obtain ⟨newItems, newCells, evs, h, hp, hc, hv, hl, hcls, hheap, hcnt, hic⟩ :=
    populate_entries_spec env ((appEntries w.reg).map Prod.fst) ⟨menu.title, [], menu.position⟩
      ⟨w.reg, ⟨w.heap.next, []⟩, w.nextIcon,
        w.trace ++ (menu.items.map MenuItem.payload).map Event.free ++
          (menu.items.filterMap MenuItem.icon).map Event.menu_release_icon⟩
  simp only [List.length_map, List.nil_append] at h hp hc hv hl hheap hcnt hic
  have hinfo := appEntries_info w.reg
  refine ⟨newItems, newCells, evs, ?_, hp, hc, hv, ?_, hcls, hheap, hcnt, ?_⟩
  · rw [populate_eq]
    simp only [foldl_free_eq _ w hps hnd h0]
    rw [h]
    simp [World.emit, clearEvents, List.map_map, Function.comp]
  · rw [hl, List.map_map]
    have := congrArg (List.map AppInfo.title) hinfo
    simpa [List.map_map, Function.comp] using this
  · intro hall
    apply hic
    intro fd hfd
    obtain ⟨p, hpm, hpe⟩ := List.mem_map.mp hfd
    have hmem : appfsEntryInfoExt w.reg fd ∈ (appEntries w.reg).map Prod.snd := by
      rw [← hinfo]
      exact List.mem_map.mpr ⟨p, hpm, by rw [hpe]⟩
    obtain ⟨q, hqm, hqe⟩ := List.mem_map.mp hmem
    rw [← hqe]
    exact hall q hqm

/-! ## Lemmas: observers on classes of calls -/

theorem heapStep_not_isHeap (s : Option (List Nat × List Nat)) (e : Event)
    (h : e.isHeap = false) : heapStep s e = s := by
  cases s with
  | none => rfl
  | some p => cases e <;> simp_all [heapStep, Event.isHeap]

theorem foldl_heapStep_not_isHeap (evs : List Event) (s : Option (List Nat × List Nat))
    (h : ∀ e ∈ evs, e.isHeap = false) : evs.foldl heapStep s = s := by
  induction evs generalizing s with
  | nil => rfl
  | cons e rest ih =>
    simp only [List.foldl_cons]
    rw [heapStep_not_isHeap s e (h e (by simp)), ih s (fun e he => h e (by simp [he]))]

theorem frameStep_not_isFrame (s : Option Bool × Bool) (e : Event)
    (h : e.isFrame = false) : frameStep s e = s := by
  cases e <;> simp_all [frameStep, Event.isFrame]

theorem foldl_frameStep_not_isFrame (evs : List Event) (s : Option Bool × Bool)
    (h : ∀ e ∈ evs, e.isFrame = false) : evs.foldl frameStep s = s := by
  induction evs generalizing s with
  | nil => rfl
  | cons e rest ih =>
    simp only [List.foldl_cons]
    rw [frameStep_not_isFrame s e (h e (by simp)), ih s (fun e he => h e (by simp [he]))]

theorem isPopulateEntry_classes (e : Event) (h : e.isPopulateEntry = true) :
    e.isFrame = false ∧ e.isBoot = false ∧ e.isPayloadFree = false ∧ e.isDelete = false ∧
      e.isContextMenu = false := by
  cases e <;> simp_all [Event.isPopulateEntry, Event.isIconLoad, Event.isFrame, Event.isBoot,
    Event.isPayloadFree, Event.isDelete, Event.isContextMenu]

theorem isRelease_classes (e : Event) (h : e.isRelease = true) :
    e.isFrame = false ∧ e.isBoot = false ∧ e.isPayloadMalloc = false ∧ e.isDelete = false ∧
      e.isContextMenu = false := by
  cases e <;> simp_all [Event.isRelease, Event.isFrame, Event.isBoot, Event.isPayloadMalloc,
    Event.isDelete, Event.isContextMenu]

theorem clearEvents_isRelease (items : List MenuItem) :
    ∀ e ∈ clearEvents items, e.isRelease = true := by
  intro e he
  simp only [clearEvents, List.mem_append, List.mem_map] at he
  rcases he with ⟨item, _, h⟩ | ⟨id, _, h⟩ <;> subst h <;> rfl

theorem clearEvents_countP_free (items : List MenuItem) :
    (clearEvents items).countP Event.isPayloadFree = items.length := by
  have h1 : (items.map (fun item => Event.free item.payload)).countP Event.isPayloadFree =
      items.length := by
    induction items with
    | nil => rfl
    | cons x rest ih => simp [List.countP_cons, Event.isPayloadFree, ih]
  have h2 : ((items.filterMap MenuItem.icon).map Event.menu_release_icon).countP
      Event.isPayloadFree = 0 := by
    rw [List.countP_eq_zero]
    intro e he
    obtain ⟨id, _, hid⟩ := List.mem_map.mp he
    subst hid
    simp [Event.isPayloadFree]
  simp only [clearEvents, List.countP_append, h1, h2]
  rfl

theorem teardownEvents_cons (item : MenuItem) (items : List MenuItem) :
    teardownEvents (item :: items) =
      (match item.icon with
       | some id => [Event.pax_buf_destroy id]
       | none => []) ++ [Event.free item.payload] ++ teardownEvents items := by
  simp [teardownEvents]

theorem teardownEvents_isRelease (items : List MenuItem) :
    ∀ e ∈ teardownEvents items, e.isRelease = true := by
  induction items with
  | nil => simp [teardownEvents]
  | cons item rest ih =>
    intro e he
    rw [teardownEvents_cons] at he
    simp only [List.mem_append, List.mem_singleton] at he
    rcases he with (h | h) | h
    · cases hi : item.icon with
      | none => simp [hi] at h
      | some id =>
        simp only [hi, List.mem_singleton] at h
        subst h; rfl
    · subst h; rfl
    · exact ih e h

theorem teardownEvents_countP_free (items : List MenuItem) :
    (teardownEvents items).countP Event.isPayloadFree = items.length := by
  induction items with
  | nil => simp [teardownEvents]
  | cons item rest ih =>
    obtain ⟨label, icon, payload⟩ := item
    rw [teardownEvents_cons]
    cases icon <;> simp [List.countP_append, List.countP_cons, Event.isPayloadFree, ih]

theorem foldl_heapStep_teardown (items : List MenuItem) (ever : List Nat)
    (hnd : (items.map MenuItem.payload).Nodup) :
    (teardownEvents items).foldl heapStep (some (ever, items.map MenuItem.payload)) =
      some (ever, []) := by
  induction items with
  | nil => rfl
  | cons item rest ih =>
    simp only [List.map_cons] at hnd
    have hnotin : item.payload ∉ rest.map MenuItem.payload := (List.nodup_cons.mp hnd).1
    rw [teardownEvents_cons, List.foldl_append, List.foldl_append]
    have h1 : (match item.icon with
        | some id => [Event.pax_buf_destroy id]
        | none => []).foldl heapStep
          (some (ever, (item :: rest).map MenuItem.payload)) =
          some (ever, (item :: rest).map MenuItem.payload) := by
      cases item.icon <;> rfl
    rw [h1]
    simp only [List.map_cons, List.foldl_cons, List.foldl_nil, heapStep, List.mem_cons,
      true_or, if_true, List.filter_cons, bne_self_eq_false, Bool.false_eq_true, if_false,
      filter_ne_self_of_not_mem _ _ hnotin]
    exact ih (List.nodup_cons.mp hnd).2

theorem teardown_fold_eq (items : List MenuItem) :
    ∀ (w : World), w.heap.cells.map Prod.fst = items.map MenuItem.payload →
      (items.map MenuItem.payload).Nodup → (∀ p ∈ items.map MenuItem.payload, p ≠ 0) →
      (items.map (fun item => (item.icon, item.payload))).foldl
        (fun w x =>
          World.free (match x.1 with
            | some id => w.emit (Event.pax_buf_destroy id)
            | none => w) x.2) w =
        ⟨w.reg, ⟨w.heap.next, []⟩, w.nextIcon, w.trace ++ teardownEvents items⟩ := by
  induction items with
  | nil =>
    intro w h _ _
    obtain ⟨reg, ⟨next, cells⟩, nextIcon, trace⟩ := w
    have hc : cells = [] := by simpa using h
    simp [hc, teardownEvents]
  | cons item rest ih =>
    intro w h hnd h0
    obtain ⟨reg, ⟨next, cells⟩, nextIcon, trace⟩ := w
    cases cells with
    | nil => simp at h
    | cons c cs =>
      simp only [List.map_cons, List.cons.injEq] at h hnd
      obtain ⟨hc, hcs⟩ := h
      have hp0 : item.payload ≠ 0 := h0 item.payload (by simp)
      have hnotin : item.payload ∉ rest.map MenuItem.payload := (List.nodup_cons.mp hnd).1
      have hfilter : cs.filter (fun c => c.1 != item.payload) = cs := by
        rw [List.filter_eq_self]
        intro a ha
        have hm : a.1 ∈ rest.map MenuItem.payload := by
          rw [← hcs]; exact List.mem_map_of_mem _ ha
        have : a.1 ≠ item.payload := fun e => hnotin (e ▸ hm)
        simpa using this
      have hstep : World.free (match item.icon with
            | some id => World.emit ⟨reg, ⟨next, c :: cs⟩, nextIcon, trace⟩
                (Event.pax_buf_destroy id)
            | none => ⟨reg, ⟨next, c :: cs⟩, nextIcon, trace⟩) item.payload =
          ⟨reg, ⟨next, cs⟩, nextIcon,
            trace ++ ((match item.icon with
              | some id => [Event.pax_buf_destroy id]
              | none => []) ++ [Event.free item.payload])⟩ := by
        cases item.icon <;>
          simp [World.free, World.emit, hp0, List.filter_cons, hc, hfilter]
      rw [teardownEvents_cons]
      simp only [List.map_cons, List.foldl_cons]
      rw [hstep, ih _ hcs (List.nodup_cons.mp hnd).2 (fun q hq => h0 q (by simp [hq]))]
      simp

/-- The teardown in closed form. -/
theorem launcher_teardown_eq (w : World) (menu : Menu) (hinv : HeapInv w)
    (hown : Owns menu w) :
    launcher_teardown w menu =
      ⟨w.reg, ⟨w.heap.next, []⟩, w.nextIcon,
       w.trace ++ teardownEvents menu.items ++
         [Event.menu_free menu.title, Event.destroy_apps_icon]⟩ := by
  have hps : w.heap.cells.map Prod.fst = menu.items.map MenuItem.payload := hown.symm
  have hnd : (menu.items.map MenuItem.payload).Nodup := hps ▸ hinv.2.1
  have h0 : ∀ p ∈ menu.items.map MenuItem.payload, p ≠ 0 := by
    intro p hp
    have := (hinv.2.2.1 p (hps ▸ hp)).1
    omega
  have hfold := teardown_fold_eq menu.items w hps hnd h0
  rw [← range_map_icon_args, List.foldl_map] at hfold
  simp only [launcher_teardown]
  rw [hfold]
  simp [menu_free, World.emit]

/-! ## Lemmas: `populate` re-establishes the invariant -/

theorem populate_establishes (env : Env) (w : World) (st : Launcher)
    (hinv : HeapInv w) (hown : Owns st.menu w)
    (hstart : st.appfs_fd_to_start = 0) (hquit : st.quit = false)
    (hframe : (w.trace.foldl frameStep (none, true)).2 = true)
    (hboot : w.trace.countP Event.isBoot = 0)
    (hbal : w.trace.countP Event.isPayloadMalloc =
      w.trace.countP Event.isPayloadFree + st.menu.items.length) :
    Held (launcher_after_context env w st).2 (launcher_after_context env w st).1 ∧
      (launcher_after_context env w st).1.render = true ∧
      (launcher_after_context env w st).2.reg = w.reg ∧
      (launcher_after_context env w st).1.menu.title = st.menu.title := by
  obtain ⟨newItems, newCells, evs, h, hp, hc, hv, hl, hcls, hheap, hcnt, _⟩ :=
    populate_spec env w st.menu hinv hown
  obtain ⟨⟨ever, hrun, hever⟩, hnd, hbound, hnext⟩ := hinv
  have hlen : newItems.length = (appEntries w.reg).length := by
    have := congrArg List.length hp
    simpa using this
  have hclr := clearEvents_isRelease st.menu.items
  simp only [launcher_after_context, h]
  refine ⟨⟨⟨⟨⟨ever ++ List.range' w.heap.next (appEntries w.reg).length, ?_, ?_⟩,
    ?_, ?_, ?_⟩, ?_, hv, ?_, ?_, rfl, ?_, ?_, ?_⟩, hstart, rfl, hquit⟩,
    trivial, trivial, rfl⟩
  · simp only [heapRun, List.foldl_append] at hrun ⊢
    rw [hrun, ← hown]
    have h1 : (clearEvents st.menu.items).foldl heapStep
        (some (ever, st.menu.items.map MenuItem.payload)) = some (ever, []) := by
      simp only [clearEvents, List.foldl_append]
      have := foldl_heapStep_free (st.menu.items.map MenuItem.payload) ever (hown ▸ hnd)
      rw [List.map_map] at this
      rw [show (fun item : MenuItem => Event.free item.payload) = Event.free ∘ MenuItem.payload
        from rfl, this]
      apply foldl_heapStep_not_isHeap
      intro e he
      obtain ⟨id, _, hid⟩ := List.mem_map.mp he
      subst hid; rfl
    rw [h1, hheap ever [] hever, hc]
    simp [heapStep]
  · intro a ha
    simp only [List.mem_append, List.mem_range'_1] at ha
    rcases ha with h1 | h1
    · have := hever a h1
      simp only; omega
    · simp only; omega
  · simp only [hc]
    exact List.nodup_range' _ _
  · intro a ha
    simp only [hc, List.mem_range'_1] at ha
    simp only; omega
  · simp only; omega
  · simp only [Owns, menu_set_position, hp, hc]
  · simpa [menu_set_position] using hl
  · simp only [List.foldl_append, List.foldl_cons, List.foldl_nil]
    rw [foldl_frameStep_not_isFrame (clearEvents st.menu.items) _
        (fun e he => (isRelease_classes e (hclr e he)).1),
      foldl_frameStep_not_isFrame evs _ (fun e he => (isPopulateEntry_classes e (hcls e he)).1)]
    simp [frameStep, hframe]
  · simp only [List.countP_append, hboot,
      countP_eq_zero_of_forall _ _ (fun e he => (isRelease_classes e (hclr e he)).2.1),
      countP_eq_zero_of_forall _ _ (fun e he => (isPopulateEntry_classes e (hcls e he)).2.1)]
    simp [Event.isBoot]
  · simp only [List.countP_append, hbal, hcnt.1,
      countP_eq_zero_of_forall _ _ (fun e he => (isRelease_classes e (hclr e he)).2.2.1),
      countP_eq_zero_of_forall _ _ (fun e he => (isPopulateEntry_classes e (hcls e he)).2.2.1),
      clearEvents_countP_free, menu_set_position, hlen]
    simp [Event.isPayloadMalloc, Event.isPayloadFree]
  · simp only [menu_set_position]
    by_cases hz : newItems.length < 1
    · right
      exact List.length_eq_zero.mp (by omega)
    · left
      simp only [hz, if_false]
      split_ifs <;> omega

/-! ## Lemmas: the invariant under single calls -/

theorem isNeutral_classes (e : Event) (h : e.isNeutral = true) :
    e.isHeap = false ∧ e.isFrame = false ∧ e.isBoot = false ∧ e.isPayloadMalloc = false ∧
      e.isPayloadFree = false := by
  cases e <;> simp_all [Event.isNeutral, Event.isHeap, Event.isFrame, Event.isBoot,
    Event.isPayloadMalloc, Event.isPayloadFree]

theorem heapInv_extend (w w2 : World) (evs : List Event) (hinv : HeapInv w)
    (hheap : w2.heap = w.heap) (htrace : w2.trace = w.trace ++ evs)
    (hevs : ∀ e ∈ evs, e.isHeap = false) : HeapInv w2 := by
  obtain ⟨⟨ever, hrun, hever⟩, hnd, hbound, hnext⟩ := hinv
  refine ⟨⟨ever, ?_, ?_⟩, ?_, ?_, ?_⟩
  · rw [htrace, hheap]
    simp only [heapRun, List.foldl_append] at hrun ⊢
    rw [hrun, foldl_heapStep_not_isHeap evs _ hevs]
  · rw [hheap]; exact hever
  · rw [hheap]; exact hnd
  · rw [hheap]; exact hbound
  · rw [hheap]; exact hnext

theorem core_extend (w w2 : World) (menu : Menu) (empty : Bool) (evs : List Event)
    (hcore : Core w menu empty) (hreg : w2.reg = w.reg) (hheap : w2.heap = w.heap)
    (htrace : w2.trace = w.trace ++ evs) (hevs : ∀ e ∈ evs, e.isNeutral = true) :
    Core w2 menu empty := by
  obtain ⟨hinv, hown, hv, hl, hf, he, hb, hbal, hpos⟩ := hcore
  refine ⟨heapInv_extend w w2 evs hinv hheap htrace
      (fun e h => (isNeutral_classes e (hevs e h)).1), ?_, ?_, ?_, ?_, ?_, ?_, ?_, hpos⟩
  · simpa [Owns, hheap] using hown
  · rw [hheap, hreg]; exact hv
  · rw [hreg]; exact hl
  · rw [htrace, List.foldl_append, hf]
    exact foldl_frameStep_not_isFrame evs _ (fun e h => (isNeutral_classes e (hevs e h)).2.1)
  · rw [hreg]; exact he
  · rw [htrace, List.countP_append, hb,
      countP_eq_zero_of_forall _ _ (fun e h => (isNeutral_classes e (hevs e h)).2.2.1)]
  · rw [htrace, List.countP_append, List.countP_append, hbal,
      countP_eq_zero_of_forall _ _ (fun e h => (isNeutral_classes e (hevs e h)).2.2.2.1),
      countP_eq_zero_of_forall _ _ (fun e h => (isNeutral_classes e (hevs e h)).2.2.2.2)]
    omega

theorem core_position (w : World) (menu : Menu) (empty : Bool) (p : Nat)
    (hcore : Core w menu empty) (hp : p < menu.items.length ∨ menu.items = []) :
    Core w ⟨menu.title, menu.items, p⟩ empty := by
  obtain ⟨hinv, hown, hv, hl, hf, he, hb, hbal, _⟩ := hcore
  exact ⟨hinv, hown, hv, hl, hf, he, hb, hbal, hp⟩

theorem core_navigate_next (w : World) (menu : Menu) (empty : Bool)
    (hcore : Core w menu empty) : Core w (menu_navigate_next menu) empty := by
  unfold menu_navigate_next
  split_ifs with h1 h2
  · exact hcore
  · exact core_position w menu empty _ hcore (Or.inl h2)
  · exact hcore

theorem core_navigate_previous (w : World) (menu : Menu) (empty : Bool)
    (hcore : Core w menu empty) : Core w (menu_navigate_previous menu) empty := by
  have hpos := hcore.2.2.2.2.2.2.2.2
  unfold menu_navigate_previous
  split_ifs with h1
  · exact hcore
  · refine core_position w menu empty _ hcore (Or.inl ?_)
    rcases hpos with h | h
    · show menu.position - 1 < menu.items.length
      omega
    · simp [h] at h1

theorem core_deref (w : World) (menu : Menu) (empty : Bool) (a : Nat)
    (hcore : Core w menu empty) (ha : a ∈ w.heap.cells.map Prod.fst) :
    Core (w.emit (Event.deref a)) menu empty := by
  obtain ⟨hinv, hown, hv, hl, hf, he, hb, hbal, hpos⟩ := hcore
  obtain ⟨⟨ever, hrun, hever⟩, hnd, hbound, hnext⟩ := hinv
  refine ⟨⟨⟨ever, ?_, hever⟩, hnd, hbound, hnext⟩, hown, hv, hl, ?_, he, ?_, ?_, hpos⟩
  · simp only [World.emit, heapRun, List.foldl_append, List.foldl_cons, List.foldl_nil] at hrun ⊢
    rw [hrun]
    simp [heapStep, ha]
  · simp only [World.emit, List.foldl_append, hf]
    rfl
  · simp only [World.emit, List.countP_append, hb]
    rfl
  · simp only [World.emit, List.countP_append, hbal]
    simp [Event.isPayloadMalloc, Event.isPayloadFree]

theorem core_render (w : World) (menu : Menu) (empty : Bool)
    (hcore : Core w menu empty) :
    Core (w.emit (Event.render_launcher empty)) menu empty := by
  obtain ⟨hinv, hown, hv, hl, hf, he, hb, hbal, hpos⟩ := hcore
  refine ⟨heapInv_extend w _ [Event.render_launcher empty] hinv rfl rfl (by simp [Event.isHeap]),
    hown, hv, hl, ?_, he, ?_, ?_, hpos⟩
  · simp only [World.emit, List.foldl_append, hf]
    simp [frameStep]
  · simp only [World.emit, List.countP_append, hb]
    rfl
  · simp only [World.emit, List.countP_append, hbal]
    simp [Event.isPayloadMalloc, Event.isPayloadFree]

theorem read_of_mem (h : Heap) (a : Nat) (ha : a ∈ h.cells.map Prod.fst) :
    ∃ fd, h.read a = some fd := by
  obtain ⟨c, hc, hca⟩ := List.mem_map.mp ha
  cases hf : h.cells.find? (fun c => c.1 == a) with
  | none =>
    rw [List.find?_eq_none] at hf
    have := hf c hc
    simp [hca] at this
  | some d => exact ⟨d.2, by simp [Heap.read, hf]⟩

theorem callback_args_mem (menu : Menu) (i : Nat) :
    menu_get_callback_args menu i = 0 ∨
      menu_get_callback_args menu i ∈ menu.items.map MenuItem.payload := by
  unfold menu_get_callback_args
  cases h : menu.items.get? i with
  | none => left; rfl
  | some item =>
    right
    simp only
    exact List.mem_map_of_mem _ (List.get?_mem h)

/-! ## Lemmas: teardown and the end of a loop iteration -/

theorem teardown_done (w : World) (menu : Menu) (hinv : HeapInv w) (hown : Owns menu w)
    (hframe : (w.trace.foldl frameStep (none, true)).2 = true)
    (hboot : w.trace.countP Event.isBoot ≤ 1)
    (hbal : w.trace.countP Event.isPayloadMalloc =
      w.trace.countP Event.isPayloadFree + menu.items.length) :
    Done (launcher_teardown w menu) := by
  rw [launcher_teardown_eq w menu hinv hown]
  have hrel := teardownEvents_isRelease menu.items
  obtain ⟨⟨ever, hrun, hever⟩, hnd, hbound, hnext⟩ := hinv
  refine ⟨⟨⟨ever, ?_, hever⟩, by simp, by simp, hnext⟩, rfl, ?_, ?_, ?_⟩
  · simp only [heapRun, List.foldl_append] at hrun ⊢
    rw [hrun, ← hown, foldl_heapStep_teardown menu.items ever (hown ▸ hnd)]
    rfl
  · simp only [List.foldl_append]
    rw [foldl_frameStep_not_isFrame (teardownEvents menu.items) _
      (fun e he => (isRelease_classes e (hrel e he)).1)]
    simpa [frameStep] using hframe
  · simp only [List.countP_append,
      countP_eq_zero_of_forall _ _ (fun e he => (isRelease_classes e (hrel e he)).2.1)]
    simpa [Event.isBoot] using hboot
  · simp only [List.countP_append, hbal,
      countP_eq_zero_of_forall _ _ (fun e he => (isRelease_classes e (hrel e he)).2.2.1),
      teardownEvents_countP_free]
    simp [Event.isPayloadMalloc, Event.isPayloadFree]

theorem launcher_finish_inv (w : World) (st : Launcher)
    (hcore : Core w st.menu st.empty) (hctx : st.appfs_fd_context_menu = 0)
    (hstart : st.appfs_fd_to_start = 0 ∨ st.appfs_fd_to_start ∈ w.heap.cells.map Prod.fst) :
    Inv (launcher_finish w st) := by
  have hcore1 : Core (if st.render then w.emit (Event.render_launcher st.empty) else w)
      st.menu st.empty := by
    split_ifs
    · exact core_render w st.menu st.empty hcore
    · exact hcore
  have hcells : (if st.render then w.emit (Event.render_launcher st.empty) else w).heap =
      w.heap := by
    split_ifs <;> rfl
  unfold launcher_finish
  by_cases hr : st.render = true
  · simp only [hr, if_true] at hcore1 hcells ⊢
    by_cases hs : st.appfs_fd_to_start = 0
    · simp only [hs, ne_eq, not_true_eq_false, if_false]
      by_cases hq : st.quit = true
      · simp only [hq, if_true]
        obtain ⟨hinv, hown, _, _, hf, _, hb, hbal, _⟩ := hcore1
        exact teardown_done _ _ hinv hown (by rw [hf]) (by omega) hbal
      · simp only [hq, Bool.false_eq_true, if_false]
        exact ⟨hcore1, rfl, hctx, rfl⟩
    · simp only [hs, ne_eq, not_false_eq_true, if_true]
      have hmem : st.appfs_fd_to_start ∈ w.heap.cells.map Prod.fst := by
        rcases hstart with h | h
        · exact absurd h hs
        · exact h
      obtain ⟨fd, hfd⟩ := read_of_mem w.heap _ hmem
      have hread : ((w.emit (Event.render_launcher st.empty)).emit
          (Event.deref st.appfs_fd_to_start)).heap.read st.appfs_fd_to_start = some fd := hfd
      rw [hread]
      have hcore2 := core_deref _ _ _ st.appfs_fd_to_start hcore1 (by rw [hcells]; exact hmem)
      obtain ⟨hinv, hown, _, _, hf, _, hb, hbal, _⟩ := hcore2
      refine teardown_done _ _ (heapInv_extend _ _ [Event.appfs_boot_app fd] hinv rfl rfl
        (by simp [Event.isHeap])) hown ?_ ?_ ?_
      · simp only [World.emit, List.foldl_append] at hf ⊢
        rw [hf]; rfl
      · simp only [World.emit, List.countP_append] at hb ⊢
        simp only [hb]
        simp [Event.isBoot]
      · simp only [World.emit, List.countP_append] at hbal ⊢
        simp only [hbal]
        simp [Event.isPayloadMalloc, Event.isPayloadFree]
  · simp only [hr, Bool.false_eq_true, if_false] at hcore1 hcells ⊢
    by_cases hs : st.appfs_fd_to_start = 0
    · simp only [hs, ne_eq, not_true_eq_false, if_false]
      by_cases hq : st.quit = true
      · simp only [hq, if_true]
        obtain ⟨hinv, hown, _, _, hf, _, hb, hbal, _⟩ := hcore1
        exact teardown_done _ _ hinv hown (by rw [hf]) (by omega) hbal
      · simp only [hq, Bool.false_eq_true, if_false]
        exact ⟨hcore1, by first | rfl | exact hs, hctx, by first | rfl | simpa using hq⟩
    · simp only [hs, ne_eq, not_false_eq_true, if_true]
      have hmem : st.appfs_fd_to_start ∈ w.heap.cells.map Prod.fst := by
        rcases hstart with h | h
        · exact absurd h hs
        · exact h
      obtain ⟨fd, hfd⟩ := read_of_mem w.heap _ hmem
      have hread : (w.emit (Event.deref st.appfs_fd_to_start)).heap.read
          st.appfs_fd_to_start = some fd := hfd
      rw [hread]
      have hcore2 := core_deref _ _ _ st.appfs_fd_to_start hcore1 hmem
      obtain ⟨hinv, hown, _, _, hf, _, hb, hbal, _⟩ := hcore2
      refine teardown_done _ _ (heapInv_extend _ _ [Event.appfs_boot_app fd] hinv rfl rfl
        (by simp [Event.isHeap])) hown ?_ ?_ ?_
      · simp only [World.emit, List.foldl_append] at hf ⊢
        rw [hf]; rfl
      · simp only [World.emit, List.countP_append] at hb ⊢
        simp only [hb]
        simp [Event.isBoot]
      · simp only [World.emit, List.countP_append] at hbal ⊢
        simp only [hbal]
        simp [Event.isPayloadMalloc, Event.isPayloadFree]

/-! ## Lemmas: one step of the machine keeps the invariant -/

theorem context_iteration_spec (env : Env) (w : World) (c : Context) (m : Option Msg) :
    ∃ (evs : List Event) (reg2 : Registry),
      (context_menu_iteration env w c m).2 = ⟨reg2, w.heap, w.nextIcon, w.trace ++ evs⟩ ∧
      (∀ e ∈ evs, e.isNeutral = true) ∧
      ((context_menu_iteration env w c m).1.quit = false → reg2 = w.reg) := by
  unfold context_menu_iteration
  generalize context_menu_event c m = r
  obtain ⟨c1, action⟩ := r
  by_cases hr : c1.render = true
  · by_cases ha : action = CONTEXT_ACTION_UNINSTALL
    · refine ⟨[Event.render_context, Event.render_message "Uninstalling app...",
        Event.appfsDeleteFile c1.name], env.appfsDeleteFile c1.name w.reg, ?_, ?_, ?_⟩
      · simp [hr, ha, World.emit]
      · intro e he
        simp only [List.mem_cons, List.mem_singleton, List.not_mem_nil, or_false] at he
        rcases he with h | h | h <;> subst h <;> rfl
      · simp [hr, ha]
    · refine ⟨[Event.render_context], w.reg, ?_, ?_, ?_⟩
      · simp [hr, ha, World.emit]
      · intro e he
        simp only [List.mem_singleton] at he
        subst he; rfl
      · intro _; rfl
  · by_cases ha : action = CONTEXT_ACTION_UNINSTALL
    · refine ⟨[Event.render_message "Uninstalling app...",
        Event.appfsDeleteFile c1.name], env.appfsDeleteFile c1.name w.reg, ?_, ?_, ?_⟩
      · simp [hr, ha, World.emit]
      · intro e he
        simp only [List.mem_cons, List.mem_singleton, List.not_mem_nil, or_false] at he
        rcases he with h | h <;> subst h <;> rfl
      · simp [hr, ha]
    · refine ⟨[], w.reg, ?_, ?_, ?_⟩
      · simp [hr, ha]
      · simp
      · intro _; rfl

theorem parts_extend (w w2 : World) (menu : Menu) (empty : Bool) (evs : List Event)
    (hcore : Core w menu empty) (hheap : w2.heap = w.heap)
    (htrace : w2.trace = w.trace ++ evs) (hevs : ∀ e ∈ evs, e.isNeutral = true) :
    HeapInv w2 ∧ Owns menu w2 ∧ (w2.trace.foldl frameStep (none, true)).2 = true ∧
      w2.trace.countP Event.isBoot = 0 ∧
      w2.trace.countP Event.isPayloadMalloc =
        w2.trace.countP Event.isPayloadFree + menu.items.length := by
  obtain ⟨hinv, hown, hv, hl, hf, he, hb, hbal, hpos⟩ := hcore
  refine ⟨heapInv_extend w w2 evs hinv hheap htrace
      (fun e h => (isNeutral_classes e (hevs e h)).1), ?_, ?_, ?_, ?_⟩
  · simpa [Owns, hheap] using hown
  · rw [htrace, List.foldl_append, hf,
      foldl_frameStep_not_isFrame evs _ (fun e h => (isNeutral_classes e (hevs e h)).2.1)]
  · rw [htrace, List.countP_append, hb,
      countP_eq_zero_of_forall _ _ (fun e h => (isNeutral_classes e (hevs e h)).2.2.1)]
  · rw [htrace, List.countP_append, List.countP_append, hbal,
      countP_eq_zero_of_forall _ _ (fun e h => (isNeutral_classes e (hevs e h)).2.2.2.1),
      countP_eq_zero_of_forall _ _ (fun e h => (isNeutral_classes e (hevs e h)).2.2.2.2)]
    omega

theorem launcher_event_facts (w : World) (st : Launcher) (m : Option Msg)
    (hheld : Held w st) :
    Core w (launcher_event st m).menu (launcher_event st m).empty ∧
      (launcher_event st m).empty = st.empty ∧
      ((launcher_event st m).appfs_fd_context_menu = 0 ∨
        ((launcher_event st m).appfs_fd_context_menu ∈ w.heap.cells.map Prod.fst ∧
          (launcher_event st m).appfs_fd_to_start = 0 ∧ (launcher_event st m).quit = false)) ∧
      ((launcher_event st m).appfs_fd_to_start = 0 ∨
        (launcher_event st m).appfs_fd_to_start ∈ w.heap.cells.map Prod.fst) := by
  obtain ⟨hcore, hs, hc, hq⟩ := hheld
  have hown : st.menu.items.map MenuItem.payload = w.heap.cells.map Prod.fst := hcore.2.1
  have hargs := callback_args_mem st.menu (menu_get_position st.menu)
  rw [hown] at hargs
  cases m with
  | none => exact ⟨hcore, rfl, Or.inl hc, Or.inl hs⟩
  | some msg =>
    obtain ⟨input, state⟩ := msg
    cases state with
    | false => exact ⟨hcore, rfl, Or.inl hc, Or.inl hs⟩
    | true =>
      cases input with
      | JOYSTICK_DOWN =>
        exact ⟨core_navigate_next w st.menu st.empty hcore, rfl, Or.inl hc, Or.inl hs⟩
      | JOYSTICK_UP =>
        exact ⟨core_navigate_previous w st.menu st.empty hcore, rfl, Or.inl hc, Or.inl hs⟩
      | BUTTON_ACCEPT => exact ⟨hcore, rfl, Or.inl hc, hargs⟩
      | JOYSTICK_PRESS => exact ⟨hcore, rfl, Or.inl hc, hargs⟩
      | BUTTON_HOME => exact ⟨hcore, rfl, Or.inl hc, Or.inl hs⟩
      | BUTTON_BACK => exact ⟨hcore, rfl, Or.inl hc, Or.inl hs⟩
      | BUTTON_MENU =>
        refine ⟨hcore, rfl, ?_, Or.inl hs⟩
        rcases hargs with h | h
        · exact Or.inl h
        · exact Or.inr ⟨h, hs, hq⟩
      | BUTTON_SELECT => exact ⟨hcore, rfl, Or.inl hc, Or.inl hs⟩
      | BUTTON_START => exact ⟨hcore, rfl, Or.inl hc, Or.inl hs⟩
      | OTHER code => exact ⟨hcore, rfl, Or.inl hc, Or.inl hs⟩

/-- One step of the machine keeps the invariant. -/
theorem step_inv (env : Env) (M : Machine) (m : Option Msg) (hinv : Inv M) :
    Inv (step env M m) := by
  obtain ⟨w, st, mode⟩ := M
  cases mode with
  | listing =>
    have hheld : Held w st := hinv
    obtain ⟨hcore, hempty, hctx, hstart⟩ := launcher_event_facts w st m hheld
    simp only [step]
    by_cases hc : (launcher_event st m).appfs_fd_context_menu = 0
    · simp only [hc, ne_eq, not_true_eq_false, if_false]
      exact launcher_finish_inv w _ hcore hc hstart
    · simp only [hc, ne_eq, not_false_eq_true, if_true]
      obtain ⟨hmem, hs0, hq0⟩ := hctx.resolve_left hc
      obtain ⟨fd, hfd⟩ := read_of_mem w.heap _ hmem
      have hread : (w.emit (Event.deref (launcher_event st m).appfs_fd_context_menu)).heap.read
          (launcher_event st m).appfs_fd_context_menu = some fd := hfd
      rw [hread]
      have hcore2 := core_deref _ _ _ _ hcore hmem
      refine ⟨?_, hs0, hq0⟩
      exact core_extend _ _ _ _
        [Event.context_menu fd, Event.menu_alloc (appfsEntryInfoExt w.reg fd).title]
        hcore2 rfl rfl (by simp [context_menu_enter, menu_alloc, World.emit])
        (by
          intro e he
          simp only [List.mem_cons, List.mem_singleton, List.not_mem_nil, or_false] at he
          rcases he with h | h <;> subst h <;> rfl)
  | context c =>
    obtain ⟨hcore, hs0, hq0⟩ : Core w st.menu st.empty ∧ st.appfs_fd_to_start = 0 ∧
      st.quit = false := hinv
    obtain ⟨evs, reg2, hw, hevs, hreg⟩ := context_iteration_spec env w c m
    simp only [step]
    by_cases hq : (context_menu_iteration env w c m).1.quit = true
    · simp only [hq, if_true]
      obtain ⟨h1, h2, h3, h4, h5⟩ := parts_extend w
        (menu_free (context_menu_iteration env w c m).2 (context_menu_iteration env w c m).1.menu)
        st.menu st.empty
        (evs ++ [Event.menu_free (context_menu_iteration env w c m).1.menu.title]) hcore
        (by rw [hw]; rfl) (by rw [hw]; simp [menu_free, World.emit])
        (by
          intro e he
          simp only [List.mem_append, List.mem_singleton] at he
          rcases he with h | h
          · exact hevs e h
          · subst h; rfl)
      obtain ⟨hheld, hrender, _, _⟩ := populate_establishes env _ st h1 h2 hs0 hq0 h3 h4 h5
      exact launcher_finish_inv _ _ hheld.1 hheld.2.2.1 (Or.inl hheld.2.1)
    · simp only [hq, Bool.false_eq_true, if_false]
      have hq2 : (context_menu_iteration env w c m).1.quit = false := by simpa using hq
      refine ⟨?_, hs0, hq0⟩
      exact core_extend w _ st.menu st.empty evs hcore (by rw [hw]; exact hreg hq2)
        (by rw [hw]) (by rw [hw]) hevs
  | returned => exact hinv
  | fault => exact hinv

theorem init_inv (env : Env) (reg : Registry) : Inv (launcher_init env (initialWorld reg)) := by
  have hinv : HeapInv (((menu_alloc (initialWorld reg) "ESP32 apps").2).emit
      Event.decode_apps_icon) := by
    refine ⟨⟨[], rfl, by simp⟩, by simp [menu_alloc, World.emit, initialWorld],
      by simp [menu_alloc, World.emit, initialWorld],
      by simp [menu_alloc, World.emit, initialWorld]⟩
  obtain ⟨hheld, _, _, _⟩ := populate_establishes env _
    ⟨(menu_alloc (initialWorld reg) "ESP32 apps").1, false, true, 0, false, 0⟩
    hinv rfl rfl rfl rfl rfl rfl
  exact hheld

theorem runFrom_inv (env : Env) (inputs : List (Option Msg)) :
    ∀ (M : Machine), Inv M → Inv (runFrom env M inputs) := by
  induction inputs with
  | nil => intro M h; exact h
  | cons m rest ih =>
    intro M h
    exact ih _ (step_inv env M m h)

/-- The invariant holds after every list of inputs. -/
theorem launcher_inv (env : Env) (reg : Registry) (inputs : List (Option Msg)) :
    Inv (menu_launcher_esp32 env reg inputs) :=
  runFrom_inv env inputs _ (init_inv env reg)

/-! ## Lemmas: the launching iteration -/

theorem exists_getElem?_of_lt {α : Type} (l : List α) (i : Nat) (h : i < l.length) :
    ∃ x, l[i]? = some x :=
  ⟨l[i], List.getElem?_eq_getElem h⟩

theorem read_at_index (next : Nat) (cells : List (Nat × Int)) :
    ∀ (i a : Nat) (v : Int), (cells.map Prod.fst).Nodup → cells[i]? = some (a, v) →
      Heap.read ⟨next, cells⟩ a = some v := by
  induction cells with
  | nil => intro i a v _ h; simp at h
  | cons c cs ih =>
    intro i a v hnd h
    simp only [List.map_cons] at hnd
    cases i with
    | zero =>
      simp only [List.getElem?_cons_zero, Option.some.injEq] at h
      subst h
      simp [Heap.read]
    | succ k =>
      simp only [List.getElem?_cons_succ] at h
      have hmem : a ∈ cs.map Prod.fst :=
        List.mem_map.mpr ⟨(a, v), List.getElem?_mem h, rfl⟩
      have hne : c.1 ≠ a := fun e => (List.nodup_cons.mp hnd).1 (e ▸ hmem)
      have := ih k a v (List.nodup_cons.mp hnd).2 h
      simp only [Heap.read] at this ⊢
      rw [List.find?_cons_of_neg _ (by simpa using hne)]
      exact this

/-- The iteration that receives a confirm on a non-empty menu, in closed form. -/
theorem launch_step (env : Env) (w : World) (st : Launcher) (m : Option Msg)
    (hheld : Held w st) (hne : st.menu.items ≠ []) (hm : isConfirm m = true) :
    ∃ (fd : Int) (a : AppInfo) (item : MenuItem),
      (appEntries w.reg)[st.menu.position]? = some (fd, a) ∧
      st.menu.items[st.menu.position]? = some item ∧
      item.payload ≠ 0 ∧
      w.heap.read item.payload = some fd ∧
      step env ⟨w, st, Mode.listing⟩ m =
        ⟨⟨w.reg, ⟨w.heap.next, []⟩, w.nextIcon,
          w.trace ++ (if st.render then [Event.render_launcher st.empty] else []) ++
            [Event.deref item.payload, Event.appfs_boot_app fd] ++
            teardownEvents st.menu.items ++
            [Event.menu_free st.menu.title, Event.destroy_apps_icon]⟩,
         { st with render := false, appfs_fd_to_start := item.payload },
         Mode.returned⟩ := by
  obtain ⟨hcore, hs, hc, hq⟩ := hheld
  have hcore0 := hcore
  obtain ⟨hinv, hown, hv, hl, hf, he, hb, hbal, hpos⟩ := hcore
  have hlt : st.menu.position < st.menu.items.length := hpos.resolve_right hne
  have hlen : w.heap.cells.length = st.menu.items.length := by
    have := congrArg List.length hown
    simpa using this.symm
  have hlen2 : (appEntries w.reg).length = w.heap.cells.length := by
    have := congrArg List.length hv
    simpa using this.symm
  obtain ⟨item, hitem⟩ := exists_getElem?_of_lt st.menu.items st.menu.position hlt
  obtain ⟨cell, hcell⟩ := exists_getElem?_of_lt w.heap.cells st.menu.position (by omega)
  obtain ⟨entry, hentry⟩ := exists_getElem?_of_lt (appEntries w.reg) st.menu.position
    (by omega)
  obtain ⟨addr, val⟩ := cell
  obtain ⟨fd, a⟩ := entry
  have haddr : item.payload = addr := by
    have := congrArg (fun l => l[st.menu.position]?) hown
    simp only [List.getElem?_map, hitem, hcell, Option.map_some'] at this
    exact Option.some.inj this
  have hval : val = fd := by
    have := congrArg (fun l => l[st.menu.position]?) hv
    simp only [List.getElem?_map, hentry, hcell, Option.map_some'] at this
    exact Option.some.inj this
  subst hval
  subst haddr
  have hmem : item.payload ∈ w.heap.cells.map Prod.fst :=
    List.mem_map.mpr ⟨(item.payload, val), List.getElem?_mem hcell, rfl⟩
  have hp0 : item.payload ≠ 0 := by
    have := (hinv.2.2.1 _ hmem).1
    omega
  have hread : w.heap.read item.payload = some val :=
    read_at_index w.heap.next w.heap.cells _ _ _ hinv.2.1 hcell
  have hargs : menu_get_callback_args st.menu (menu_get_position st.menu) = item.payload := by
    simp [menu_get_callback_args, menu_get_position, hitem]
  have hev : launcher_event st m = { st with appfs_fd_to_start := item.payload } := by
    cases m with
    | none => simp [isConfirm] at hm
    | some msg =>
      obtain ⟨input, state⟩ := msg
      cases state with
      | false => cases input <;> simp [isConfirm] at hm
      | true =>
        cases input <;> first
          | (simp [isConfirm] at hm; done)
          | simp [launcher_event, hargs]
  refine ⟨val, a, item, hentry, hitem, hp0, hread, ?_⟩
  have hcore1 : Core (if st.render then w.emit (Event.render_launcher st.empty) else w)
      st.menu st.empty := by
    split_ifs
    · exact core_render w st.menu st.empty hcore0
    · exact hcore0
  have hheap1 : (if st.render then w.emit (Event.render_launcher st.empty) else w).heap =
      w.heap := by
    split_ifs <;> rfl
  have hcore2 := core_deref _ _ _ item.payload hcore1 (by rw [hheap1]; exact hmem)
  have hinv3 : HeapInv (((if st.render then w.emit (Event.render_launcher st.empty) else w).emit
      (Event.deref item.payload)).emit (Event.appfs_boot_app val)) :=
    heapInv_extend _ _ [Event.appfs_boot_app val] hcore2.1 rfl rfl (by simp [Event.isHeap])
  have htd := launcher_teardown_eq _ st.menu hinv3 hcore2.2.1
  simp only [step, hev, hc, ne_eq, not_true_eq_false, if_false, launcher_finish, hp0,
    not_false_eq_true, if_true]
  cases hr : st.render with
  | false =>
    simp only [hr, Bool.false_eq_true, if_false] at htd ⊢
    have hread2 : (w.emit (Event.deref item.payload)).heap.read item.payload = some val := hread
    rw [hread2]
    simp only [htd]
    simp [World.emit, hp0]
  | true =>
    simp only [hr, if_true] at htd ⊢
    have hread2 : ((w.emit (Event.render_launcher st.empty)).emit
        (Event.deref item.payload)).heap.read item.payload = some val := hread
    rw [hread2]
    simp only [htd]
    simp [World.emit, hp0]

/-! ## Lemmas: what the heap discipline says about a trace -/

theorem heapRun_snoc (tr : List Event) (e : Event) :
    heapRun (tr ++ [e]) = heapStep (heapRun tr) e := by
  simp [heapRun, List.foldl_append]

theorem count_free_singleton_ne (a b : Nat) (h : b ≠ a) :
    List.count (Event.free a) [Event.free b] = 0 := by
  rw [List.count_eq_zero]
  simp [h.symm]

/-- What an accepted trace guarantees: live blocks were allocated, a block that
is live or was never allocated has no `free`, an allocated block that is no
longer live has exactly one. -/
theorem heapRun_sound (tr : List Event) :
    ∀ (ever live : List Nat), heapRun tr = some (ever, live) →
      (∀ a ∈ live, a ∈ ever) ∧
      (∀ a, a ∉ ever → tr.count (Event.free a) = 0) ∧
      (∀ a ∈ live, tr.count (Event.free a) = 0) ∧
      (∀ a ∈ ever, a ∉ live → tr.count (Event.free a) = 1) ∧
      (∀ a v, Event.malloc a v ∈ tr → a ∈ ever) := by
  induction tr using List.reverseRecOn with
  | nil =>
    intro ever live h
    simp only [heapRun, List.foldl_nil, Option.some.injEq, Prod.mk.injEq] at h
    obtain ⟨h1, h2⟩ := h
    subst h1 h2
    simp
  | append_singleton l e ih =>
    intro ever live h
    rw [heapRun_snoc] at h
    cases hl : heapRun l with
    | none => simp [hl, heapStep] at h
    | some s =>
      obtain ⟨ever0, live0⟩ := s
      obtain ⟨i1, i2, i3, i4, i5⟩ := ih ever0 live0 hl
      rw [hl] at h
      cases e with
      | malloc b v =>
        by_cases hb : b ∈ ever0
        · simp [heapStep, hb] at h
        · simp only [heapStep, hb, if_false, Option.some.injEq, Prod.mk.injEq] at h
          obtain ⟨h1, h2⟩ := h
          subst h1 h2
          refine ⟨?_, ?_, ?_, ?_, ?_⟩
          · intro a ha
            simp only [List.mem_append, List.mem_singleton] at ha ⊢
            rcases ha with ha | ha
            · exact Or.inl (i1 a ha)
            · exact Or.inr ha
          · intro a ha
            simp only [List.mem_append, List.mem_singleton, not_or] at ha
            simpa using i2 a ha.1
          · intro a ha
            simp only [List.mem_append, List.mem_singleton] at ha
            rcases ha with ha | ha
            · simpa using i3 a ha
            · subst ha
              simpa using i2 a hb
          · intro a ha hna
            simp only [List.mem_append, List.mem_singleton, not_or] at ha hna
            rcases ha with ha | ha
            · simpa using i4 a ha hna.1
            · exact absurd ha hna.2
          · intro a v2 hm
            simp only [List.mem_append, List.mem_singleton, Event.malloc.injEq] at hm ⊢
            rcases hm with hm | hm
            · exact Or.inl (i5 a v2 hm)
            · exact Or.inr hm.1
      | free b =>
        by_cases hb : b ∈ live0
        · simp only [heapStep, hb, if_true, Option.some.injEq, Prod.mk.injEq] at h
          obtain ⟨h1, h2⟩ := h
          subst h1 h2
          refine ⟨?_, ?_, ?_, ?_, ?_⟩
          · intro a ha
            exact i1 a (List.mem_filter.mp ha).1
          · intro a ha
            have hab : b ≠ a := fun e => ha (e ▸ i1 b hb)
            simp [List.count_append, i2 a ha, count_free_singleton_ne a b hab]
          · intro a ha
            obtain ⟨ha1, ha2⟩ := List.mem_filter.mp ha
            have hab : b ≠ a := fun e => by simp [e] at ha2
            simp [List.count_append, i3 a ha1, count_free_singleton_ne a b hab]
          · intro a ha hna
            by_cases hab : b = a
            · subst hab
              simp [List.count_append, i3 b hb]
            · have hna0 : a ∉ live0 := by
                intro hm
                apply hna
                exact List.mem_filter.mpr ⟨hm, by simpa using fun e => hab e.symm⟩
              simp [List.count_append, i4 a ha hna0, count_free_singleton_ne a b hab]
          · intro a v2 hm
            simp only [List.mem_append, List.mem_singleton] at hm
            rcases hm with hm | hm
            · exact i5 a v2 hm
            · cases hm
        · simp [heapStep, hb] at h
      | deref b =>
        by_cases hb : b ∈ live0
        · simp only [heapStep, hb, if_true, Option.some.injEq, Prod.mk.injEq] at h
          obtain ⟨h1, h2⟩ := h
          subst h1 h2
          refine ⟨i1, ?_, ?_, ?_, ?_⟩
          · intro a ha; simpa using i2 a ha
          · intro a ha; simpa using i3 a ha
          · intro a ha hna; simpa using i4 a ha hna
          · intro a v2 hm
            simp only [List.mem_append, List.mem_singleton] at hm
            rcases hm with hm | hm
            · exact i5 a v2 hm
            · cases hm
        · simp [heapStep, hb] at h
      | _ =>
        simp only [heapStep, Option.some.injEq, Prod.mk.injEq] at h
        obtain ⟨h1, h2⟩ := h
        subst h1 h2
        refine ⟨i1, ?_, ?_, ?_, ?_⟩
        · intro a ha; simpa using i2 a ha
        · intro a ha; simpa using i3 a ha
        · intro a ha hna; simpa using i4 a ha hna
        · intro a v2 hm
          simp only [List.mem_append, List.mem_singleton] at hm
          rcases hm with hm | hm
          · exact i5 a v2 hm
          · cases hm

/-! ## Lemmas: splitting a trace at the boot call -/

theorem takeWhile_append_stop (p : Event → Bool) (l1 l2 : List Event) (x : Event)
    (h1 : ∀ e ∈ l1, p e = true) (hx : p x = false) :
    (l1 ++ x :: l2).takeWhile p = l1 ∧ (l1 ++ x :: l2).dropWhile p = x :: l2 := by
  induction l1 with
  | nil => simp [List.takeWhile_cons, List.dropWhile_cons, hx]
  | cons y rest ih =>
    have hy : p y = true := h1 y (by simp)
    obtain ⟨i1, i2⟩ := ih (fun e he => h1 e (by simp [he]))
    simp [List.takeWhile_cons, List.dropWhile_cons, hy, i1, i2]

theorem free_mem_teardownEvents (items : List MenuItem) (item : MenuItem)
    (h : item ∈ items) : Event.free item.payload ∈ teardownEvents items := by
  simp only [teardownEvents, List.mem_flatMap]
  exact ⟨item, h, by simp⟩

/-! ## Lemmas: the loop of `context_menu` -/

theorem ctx_inert_step (env : Env) (w : World) (c : Context) (m : Option Msg)
    (name title : String) (hc : CtxReady c name title)
    (h1 : isConfirm m = false) (h2 : isHomeOrBack m = false) :
    ∃ (evs : List Event), (∀ e ∈ evs, e = Event.render_context) ∧
      (context_menu_iteration env w c m).2 = ⟨w.reg, w.heap, w.nextIcon, w.trace ++ evs⟩ ∧
      CtxReady (context_menu_iteration env w c m).1 name title := by
  obtain ⟨cname, cmenu, crender, cquit⟩ := c
  obtain ⟨hn, hmenu, hq⟩ := hc
  simp only at hn hmenu hq
  subst hn hmenu hq
  have hkeep : ∀ (r : Bool), ∃ (evs : List Event), (∀ e ∈ evs, e = Event.render_context) ∧
      (if r = true then w.emit Event.render_context else w) =
        ⟨w.reg, w.heap, w.nextIcon, w.trace ++ evs⟩ := by
    intro r
    cases r
    · exact ⟨[], by simp, by simp⟩
    · exact ⟨[Event.render_context], by simp, by simp [World.emit]⟩
  cases m with
  | none =>
    obtain ⟨evs, he, hw⟩ := hkeep crender
    refine ⟨evs, he, ?_, ?_⟩
    · rw [← hw]
      cases crender <;>
        simp [context_menu_iteration, context_menu_event, CONTEXT_ACTION_NONE,
          CONTEXT_ACTION_UNINSTALL]
    · cases crender <;>
        simp [context_menu_iteration, context_menu_event, CONTEXT_ACTION_NONE,
          CONTEXT_ACTION_UNINSTALL, CtxReady]
  | some msg =>
    obtain ⟨input, state⟩ := msg
    cases state with
    | false =>
      obtain ⟨evs, he, hw⟩ := hkeep crender
      refine ⟨evs, he, ?_, ?_⟩
      · rw [← hw]
        cases crender <;>
          simp [context_menu_iteration, context_menu_event, CONTEXT_ACTION_NONE,
            CONTEXT_ACTION_UNINSTALL]
      · cases crender <;>
          simp [context_menu_iteration, context_menu_event, CONTEXT_ACTION_NONE,
            CONTEXT_ACTION_UNINSTALL, CtxReady]
    | true =>
      cases input with
      | BUTTON_ACCEPT => simp [isConfirm] at h1
      | JOYSTICK_PRESS => simp [isConfirm] at h1
      | BUTTON_HOME => simp [isHomeOrBack] at h2
      | BUTTON_BACK => simp [isHomeOrBack] at h2
      | JOYSTICK_DOWN =>
        exact ⟨[Event.render_context], by simp,
          by simp [context_menu_iteration, context_menu_event, CONTEXT_ACTION_NONE,
            CONTEXT_ACTION_UNINSTALL, World.emit],
          by simp [context_menu_iteration, context_menu_event, CONTEXT_ACTION_NONE,
            CONTEXT_ACTION_UNINSTALL, CtxReady, menu_navigate_next]⟩
      | JOYSTICK_UP =>
        exact ⟨[Event.render_context], by simp,
          by simp [context_menu_iteration, context_menu_event, CONTEXT_ACTION_NONE,
            CONTEXT_ACTION_UNINSTALL, World.emit],
          by simp [context_menu_iteration, context_menu_event, CONTEXT_ACTION_NONE,
            CONTEXT_ACTION_UNINSTALL, CtxReady, menu_navigate_previous]⟩
      | BUTTON_MENU =>
        obtain ⟨evs, he, hw⟩ := hkeep crender
        refine ⟨evs, he, ?_, ?_⟩
        · rw [← hw]
          cases crender <;>
            simp [context_menu_iteration, context_menu_event, CONTEXT_ACTION_NONE,
              CONTEXT_ACTION_UNINSTALL]
        · cases crender <;>
            simp [context_menu_iteration, context_menu_event, CONTEXT_ACTION_NONE,
              CONTEXT_ACTION_UNINSTALL, CtxReady]
      | BUTTON_SELECT =>
        obtain ⟨evs, he, hw⟩ := hkeep crender
        refine ⟨evs, he, ?_, ?_⟩
        · rw [← hw]
          cases crender <;>
            simp [context_menu_iteration, context_menu_event, CONTEXT_ACTION_NONE,
              CONTEXT_ACTION_UNINSTALL]
        · cases crender <;>
            simp [context_menu_iteration, context_menu_event, CONTEXT_ACTION_NONE,
              CONTEXT_ACTION_UNINSTALL, CtxReady]
      | BUTTON_START =>
        obtain ⟨evs, he, hw⟩ := hkeep crender
        refine ⟨evs, he, ?_, ?_⟩
        · rw [← hw]
          cases crender <;>
            simp [context_menu_iteration, context_menu_event, CONTEXT_ACTION_NONE,
              CONTEXT_ACTION_UNINSTALL]
        · cases crender <;>
            simp [context_menu_iteration, context_menu_event, CONTEXT_ACTION_NONE,
              CONTEXT_ACTION_UNINSTALL, CtxReady]
      | OTHER code =>
        obtain ⟨evs, he, hw⟩ := hkeep crender
        refine ⟨evs, he, ?_, ?_⟩
        · rw [← hw]
          cases crender <;>
            simp [context_menu_iteration, context_menu_event, CONTEXT_ACTION_NONE,
              CONTEXT_ACTION_UNINSTALL]
        · cases crender <;>
            simp [context_menu_iteration, context_menu_event, CONTEXT_ACTION_NONE,
              CONTEXT_ACTION_UNINSTALL, CtxReady]

theorem ctx_confirm_step (env : Env) (w : World) (c : Context) (m : Option Msg)
    (name title : String) (hc : CtxReady c name title) (hm : isConfirm m = true) :
    ∃ (evs : List Event), (∀ e ∈ evs, e = Event.render_context) ∧
      context_menu_iteration env w c m =
        (⟨name, ⟨title, [⟨"Uninstall", none, CONTEXT_ACTION_UNINSTALL⟩], 0⟩,
          false, true⟩,
         ⟨env.appfsDeleteFile name w.reg, w.heap, w.nextIcon,
          w.trace ++ evs ++
            [Event.render_message "Uninstalling app...", Event.appfsDeleteFile name]⟩) := by
  obtain ⟨cname, cmenu, crender, cquit⟩ := c
  obtain ⟨hn, hmenu, hq⟩ := hc
  simp only at hn hmenu hq
  subst hn hmenu hq
  have hargs : menu_get_callback_args
      ⟨title, [⟨"Uninstall", none, CONTEXT_ACTION_UNINSTALL⟩], 0⟩
      (menu_get_position ⟨title, [⟨"Uninstall", none, CONTEXT_ACTION_UNINSTALL⟩], 0⟩) =
      CONTEXT_ACTION_UNINSTALL := rfl
  have hev : context_menu_event
      ⟨cname, ⟨title, [⟨"Uninstall", none, CONTEXT_ACTION_UNINSTALL⟩], 0⟩,
        crender, false⟩ m =
      (⟨cname, ⟨title, [⟨"Uninstall", none, CONTEXT_ACTION_UNINSTALL⟩], 0⟩,
        crender, false⟩,
       CONTEXT_ACTION_UNINSTALL) := by
    cases m with
    | none => simp [isConfirm] at hm
    | some msg =>
      obtain ⟨input, state⟩ := msg
      cases state with
      | false => cases input <;> simp [isConfirm] at hm
      | true =>
        cases input <;> first
          | (simp [isConfirm] at hm; done)
          | simp [context_menu_event, hargs]
  cases crender with
  | false =>
    refine ⟨[], by simp, ?_⟩
    simp [context_menu_iteration, hev, World.emit]
  | true =>
    refine ⟨[Event.render_context], by simp, ?_⟩
    simp [context_menu_iteration, hev, World.emit]

theorem context_menu_loop_confirm (env : Env) (pre : List (Option Msg)) (m : Option Msg)
    (rest : List (Option Msg)) (name title : String)
    (hm : isConfirm m = true) :
    ∀ (c : Context) (w : World), CtxReady c name title →
      (∀ x ∈ pre, isConfirm x = false ∧ isHomeOrBack x = false) →
      ∃ (evs : List Event), (∀ e ∈ evs, e = Event.render_context) ∧
        context_menu_loop env c w (pre ++ m :: rest) =
          (⟨name, ⟨title, [⟨"Uninstall", none, CONTEXT_ACTION_UNINSTALL⟩], 0⟩,
          false, true⟩,
           ⟨env.appfsDeleteFile name w.reg, w.heap, w.nextIcon,
            w.trace ++ evs ++
              [Event.render_message "Uninstalling app...", Event.appfsDeleteFile name]⟩,
           rest) := by
  induction pre with
  | nil =>
    intro c w hc _
    obtain ⟨evs, he, hstep⟩ := ctx_confirm_step env w c m name title hc hm
    exact ⟨evs, he, by simp [context_menu_loop, hstep]⟩
  | cons x xs ih =>
    intro c w hc hpre
    obtain ⟨hx1, hx2⟩ := hpre x (by simp)
    obtain ⟨evs1, he1, hw1, hc1⟩ := ctx_inert_step env w c x name title hc hx1 hx2
    obtain ⟨evs2, he2, hloop⟩ := ih (context_menu_iteration env w c x).1
      (context_menu_iteration env w c x).2 hc1 (fun y hy => hpre y (by simp [hy]))
    refine ⟨evs1 ++ evs2, ?_, ?_⟩
    · intro e he
      simp only [List.mem_append] at he
      rcases he with h | h
      · exact he1 e h
      · exact he2 e h
    · have hq : (context_menu_iteration env w c x).1.quit = false := hc1.2.2
      have hunf : context_menu_loop env c w (x :: (xs ++ m :: rest)) =
          context_menu_loop env (context_menu_iteration env w c x).1
            (context_menu_iteration env w c x).2 (xs ++ m :: rest) := by
        simp [context_menu_loop, hq]
      rw [List.cons_append, hunf, hloop, hw1]
      simp

theorem read_value_mem (h : Heap) (a : Nat) (v : Int) (hr : h.read a = some v) :
    v ∈ h.cells.map Prod.snd := by
  simp only [Heap.read, Option.map_eq_some'] at hr
  obtain ⟨c, hc, hv⟩ := hr
  exact List.mem_map.mpr ⟨c, List.mem_of_find?_eq_some hc, hv⟩

/-! ## Lemmas: counting the `malloc` calls -/

theorem countP_isMalloc (tr : List Event) :
    tr.countP Event.isMalloc =
      tr.countP Event.isPayloadMalloc + tr.countP Event.isStructMalloc := by
  induction tr with
  | nil => rfl
  | cons e rest ih =>
    simp only [List.countP_cons, ih]
    cases e <;> simp [Event.isMalloc, Event.isPayloadMalloc, Event.isStructMalloc] <;> omega

/-! ## The claims -/

/-- C1, as stated, fails: with one application and a pressed accept, a release
(the `free` of the item's payload) comes after the boot call and none comes
before it. -/
theorem C1_counterexample :
    (afterBoot (menu_launcher_esp32 envNoIcons regOne
        [pressed Input.BUTTON_ACCEPT]).world.trace).any Event.isRelease = true ∧
      (beforeBoot (menu_launcher_esp32 envNoIcons regOne
        [pressed Input.BUTTON_ACCEPT]).world.trace).any Event.isRelease = false ∧
      afterBoot (menu_launcher_esp32 envNoIcons regOne
        [pressed Input.BUTTON_ACCEPT]).world.trace =
        [Event.appfs_boot_app 0, Event.free 1, Event.menu_free "ESP32 apps",
         Event.destroy_apps_icon] := by
  decide

/-- C1, amended: when a pressed accept or joystick-press arrives in a listing
state with a non-empty menu, the trace up to the boot call is the earlier trace,
the pending frame if any, and the read of the selected payload; it holds no
`free` of the payload of any item in the menu; the boot call comes next, and
the teardown (for every item the destroy of its icon and the `free` of its
payload, then `menu_free` and the destroy of the title icon) follows it. -/
theorem C1_boot_precedes_teardown (env : Env) (reg : Registry) (inputs : List (Option Msg))
    (m : Option Msg)
    (hmode : (menu_launcher_esp32 env reg inputs).mode = Mode.listing)
    (hne : (menu_launcher_esp32 env reg inputs).st.menu.items ≠ [])
    (hm : isConfirm m = true) :
    ∃ (fd : Int) (item : MenuItem),
      (menu_launcher_esp32 env reg inputs).st.menu.items[
        (menu_launcher_esp32 env reg inputs).st.menu.position]? = some item ∧
      beforeBoot (step env (menu_launcher_esp32 env reg inputs) m).world.trace =
        (menu_launcher_esp32 env reg inputs).world.trace ++
          (if (menu_launcher_esp32 env reg inputs).st.render then
            [Event.render_launcher (menu_launcher_esp32 env reg inputs).st.empty]
           else []) ++ [Event.deref item.payload] ∧
      afterBoot (step env (menu_launcher_esp32 env reg inputs) m).world.trace =
        Event.appfs_boot_app fd ::
          (teardownEvents (menu_launcher_esp32 env reg inputs).st.menu.items ++
            [Event.menu_free (menu_launcher_esp32 env reg inputs).st.menu.title,
             Event.destroy_apps_icon]) ∧
      (∀ it ∈ (menu_launcher_esp32 env reg inputs).st.menu.items,
        Event.free it.payload ∉
            beforeBoot (step env (menu_launcher_esp32 env reg inputs) m).world.trace ∧
          Event.free it.payload ∈
            afterBoot (step env (menu_launcher_esp32 env reg inputs) m).world.trace) := by
  have hinv := launcher_inv env reg inputs
  generalize menu_launcher_esp32 env reg inputs = M at hinv hmode hne
  obtain ⟨w, st, mode⟩ := M
  simp only at hmode hne
  subst hmode
  have hheld : Held w st := hinv
  obtain ⟨fd, a, item, _, hitem, _, _, hstep⟩ := launch_step env w st m hheld hne hm
  obtain ⟨⟨⟨ever, hrun, _⟩, _, _, _⟩, hown, _, _, _, _, hboot, _, _⟩ := hheld.1
  obtain ⟨_, _, s3, _, _⟩ := heapRun_sound w.trace ever _ hrun
  have hpre : ∀ e ∈ w.trace ++ (if st.render then [Event.render_launcher st.empty] else []) ++
      [Event.deref item.payload], (fun e => !e.isBoot) e = true := by
    intro e he
    simp only [List.mem_append, List.mem_singleton] at he
    rcases he with (he | he) | he
    · have := List.countP_eq_zero.mp hboot e he
      simpa using this
    · split_ifs at he
      · simp only [List.mem_singleton] at he
        subst he; rfl
      · simp at he
    · subst he; rfl
  have hsplit := takeWhile_append_stop (fun e => !e.isBoot)
    (w.trace ++ (if st.render then [Event.render_launcher st.empty] else []) ++
      [Event.deref item.payload])
    (teardownEvents st.menu.items ++ [Event.menu_free st.menu.title, Event.destroy_apps_icon])
    (Event.appfs_boot_app fd) hpre rfl
  have htrace : (step env ⟨w, st, Mode.listing⟩ m).world.trace =
      (w.trace ++ (if st.render then [Event.render_launcher st.empty] else []) ++
        [Event.deref item.payload]) ++ Event.appfs_boot_app fd ::
        (teardownEvents st.menu.items ++
          [Event.menu_free st.menu.title, Event.destroy_apps_icon]) := by
    rw [hstep]
    simp
  refine ⟨fd, item, hitem, ?_, ?_, ?_⟩
  · simp only [beforeBoot, htrace]
    exact hsplit.1
  · simp only [afterBoot, htrace]
    exact hsplit.2
  · intro it hit
    constructor
    · simp only [beforeBoot, htrace, hsplit.1]
      have hlive : it.payload ∈ w.heap.cells.map Prod.fst := by
        rw [← hown]
        exact List.mem_map_of_mem _ hit
      have hcount := s3 _ hlive
      rw [List.count_eq_zero] at hcount
      simp only [List.mem_append, List.mem_singleton, not_or]
      refine ⟨⟨hcount, ?_⟩, by simp⟩
      split_ifs <;> simp
    · simp only [afterBoot, htrace, hsplit.2]
      simp only [List.mem_cons, List.mem_append]
      exact Or.inr (Or.inl (free_mem_teardownEvents _ _ hit))

/-- Witness for C1: the one-application registry, no earlier input, a pressed
joystick-press. -/
theorem C1_witness :
    ∃ (fd : Int) (item : MenuItem),
      (menu_launcher_esp32 envNoIcons regOne []).st.menu.items[
        (menu_launcher_esp32 envNoIcons regOne []).st.menu.position]? = some item ∧
      beforeBoot (step envNoIcons (menu_launcher_esp32 envNoIcons regOne [])
              (pressed Input.JOYSTICK_PRESS)).world.trace =
        (menu_launcher_esp32 envNoIcons regOne []).world.trace ++
          (if (menu_launcher_esp32 envNoIcons regOne []).st.render then
            [Event.render_launcher (menu_launcher_esp32 envNoIcons regOne []).st.empty]
           else []) ++ [Event.deref item.payload] ∧
      afterBoot (step envNoIcons (menu_launcher_esp32 envNoIcons regOne [])
              (pressed Input.JOYSTICK_PRESS)).world.trace =
        Event.appfs_boot_app fd ::
          (teardownEvents (menu_launcher_esp32 envNoIcons regOne []).st.menu.items ++
            [Event.menu_free (menu_launcher_esp32 envNoIcons regOne []).st.menu.title,
             Event.destroy_apps_icon]) ∧
      (∀ it ∈ (menu_launcher_esp32 envNoIcons regOne []).st.menu.items,
        Event.free it.payload ∉
            beforeBoot (step envNoIcons (menu_launcher_esp32 envNoIcons regOne [])
              (pressed Input.JOYSTICK_PRESS)).world.trace ∧
          Event.free it.payload ∈
            afterBoot (step envNoIcons (menu_launcher_esp32 envNoIcons regOne [])
              (pressed Input.JOYSTICK_PRESS)).world.trace) :=
  C1_boot_precedes_teardown envNoIcons regOne [] (pressed Input.JOYSTICK_PRESS)
    (by decide) (by decide) (by decide)

/-- C2, as stated, fails: with two applications, after the single iteration that
receives the pressed accept the boot call has already been made and the
function has returned; no further iteration runs. -/
theorem C2_counterexample :
    (menu_launcher_esp32 envNoIcons regTwo [pressed Input.BUTTON_ACCEPT]).mode =
        Mode.returned ∧
      (menu_launcher_esp32 envNoIcons regTwo
        [pressed Input.BUTTON_ACCEPT]).world.trace.countP Event.isBoot = 1 ∧
      Event.appfs_boot_app 0 ∈
        (menu_launcher_esp32 envNoIcons regTwo [pressed Input.BUTTON_ACCEPT]).world.trace := by
  decide

/-- C2, amended: in a listing state with a non-empty menu at position `p`, the
iteration that receives a pressed accept or joystick-press stores the payload
of item `p` in `appfs_fd_to_start` and, in that same iteration, performs the
pending render if there is one, reads the payload and calls `appfs_boot_app`
with the handle stored there, which is the handle of the `p`-th enumerated
record; this is the only boot call of the run, and the function has returned
at the end of the iteration. -/
theorem C2_launch_in_same_iteration (env : Env) (reg : Registry)
    (inputs : List (Option Msg)) (m : Option Msg)
    (hmode : (menu_launcher_esp32 env reg inputs).mode = Mode.listing)
    (hne : (menu_launcher_esp32 env reg inputs).st.menu.items ≠ [])
    (hm : isConfirm m = true) :
    ∃ (fd : Int) (a : AppInfo) (item : MenuItem) (tail : List Event),
      (appEntries (menu_launcher_esp32 env reg inputs).world.reg)[
        (menu_launcher_esp32 env reg inputs).st.menu.position]? = some (fd, a) ∧
      (menu_launcher_esp32 env reg inputs).st.menu.items[
        (menu_launcher_esp32 env reg inputs).st.menu.position]? = some item ∧
      (menu_launcher_esp32 env reg inputs).world.heap.read item.payload = some fd ∧
      (step env (menu_launcher_esp32 env reg inputs) m).st.appfs_fd_to_start = item.payload ∧
      (step env (menu_launcher_esp32 env reg inputs) m).mode = Mode.returned ∧
      (step env (menu_launcher_esp32 env reg inputs) m).world.trace =
        (menu_launcher_esp32 env reg inputs).world.trace ++
          (if (menu_launcher_esp32 env reg inputs).st.render then
            [Event.render_launcher (menu_launcher_esp32 env reg inputs).st.empty]
           else []) ++
          Event.deref item.payload :: Event.appfs_boot_app fd :: tail ∧
      (step env (menu_launcher_esp32 env reg inputs) m).world.trace.countP Event.isBoot = 1 := by
  have hinv := launcher_inv env reg inputs
  have hinv2 := step_inv env _ m hinv
  generalize menu_launcher_esp32 env reg inputs = M at hinv hinv2 hmode hne
  obtain ⟨w, st, mode⟩ := M
  simp only at hmode hne
  subst hmode
  have hheld : Held w st := hinv
  obtain ⟨fd, a, item, hentry, hitem, _, hread, hstep⟩ := launch_step env w st m hheld hne hm
  have hboot : w.trace.countP Event.isBoot = 0 := hheld.1.2.2.2.2.2.2.1
  have hrel := teardownEvents_isRelease st.menu.items
  refine ⟨fd, a, item,
    teardownEvents st.menu.items ++ [Event.menu_free st.menu.title, Event.destroy_apps_icon],
    hentry, hitem, hread, ?_, ?_, ?_, ?_⟩
  · rw [hstep]
  · rw [hstep]
  · rw [hstep]
    simp
  · rw [hstep]
    simp only [List.countP_append, hboot,
      countP_eq_zero_of_forall _ _ (fun e he => (isRelease_classes e (hrel e he)).2.1)]
    cases st.render <;> simp [Event.isBoot]

/-- Witness for C2: two applications, one joystick-down, then a pressed accept. -/
theorem C2_witness :
    ∃ (fd : Int) (a : AppInfo) (item : MenuItem) (tail : List Event),
      (appEntries afterDown.world.reg)[
        afterDown.st.menu.position]? = some (fd, a) ∧
      afterDown.st.menu.items[
        afterDown.st.menu.position]? = some item ∧
      afterDown.world.heap.read item.payload = some fd ∧
      (step envNoIcons afterDown (pressed Input.BUTTON_ACCEPT)).st.appfs_fd_to_start =
        item.payload ∧
      (step envNoIcons afterDown (pressed Input.BUTTON_ACCEPT)).mode = Mode.returned ∧
      (step envNoIcons afterDown (pressed Input.BUTTON_ACCEPT)).world.trace =
        afterDown.world.trace ++
          (if afterDown.st.render then
            [Event.render_launcher afterDown.st.empty]
           else []) ++
          Event.deref item.payload :: Event.appfs_boot_app fd :: tail ∧
      (step envNoIcons afterDown (pressed Input.BUTTON_ACCEPT)).world.trace.countP
        Event.isBoot = 1 :=
  C2_launch_in_same_iteration envNoIcons regTwo [pressed Input.JOYSTICK_DOWN]
    (pressed Input.BUTTON_ACCEPT) (by decide) (by decide) (by decide)

/-- C3: for every handle `H`, every effect of `appfsDeleteFile` on the registry
and every input sequence whose first terminating input is a pressed accept or
joystick-press, `context_menu(H)` returns right after that input, having made
exactly one `appfsDeleteFile` call, on the name the registry reports for `H`,
after rendering "Uninstalling app...".  Provided the deletion removed the
record of `H`, the `populate` that follows (on a menu that owns the heap)
yields a menu with no item whose payload stores `H`. -/
theorem C3_uninstall_round_trip (env : Env) (w : World) (H : Int)
    (pre : List (Option Msg)) (m : Option Msg) (rest : List (Option Msg))
    (hpre : ∀ x ∈ pre, isConfirm x = false ∧ isHomeOrBack x = false)
    (hm : isConfirm m = true) :
    (context_menu env w H (pre ++ m :: rest)).returned = true ∧
      (context_menu env w H (pre ++ m :: rest)).rest = rest ∧
      (∃ (renders : List Event), (∀ e ∈ renders, e = Event.render_context) ∧
        (context_menu env w H (pre ++ m :: rest)).world.trace =
          w.trace ++
            [Event.context_menu H, Event.menu_alloc (appfsEntryInfoExt w.reg H).title] ++
            renders ++
            [Event.render_message "Uninstalling app...",
             Event.appfsDeleteFile (appfsEntryInfoExt w.reg H).name,
             Event.menu_free (appfsEntryInfoExt w.reg H).title]) ∧
      (context_menu env w H (pre ++ m :: rest)).world.trace.countP Event.isDelete =
        w.trace.countP Event.isDelete + 1 ∧
      (context_menu env w H (pre ++ m :: rest)).world.reg =
        env.appfsDeleteFile (appfsEntryInfoExt w.reg H).name w.reg ∧
      (∀ (menu : Menu), HeapInv w → Owns menu w →
        (∀ p ∈ appEntries (env.appfsDeleteFile (appfsEntryInfoExt w.reg H).name w.reg),
          p.1 ≠ H) →
        ∀ item ∈
          (populate env (context_menu env w H (pre ++ m :: rest)).world menu).2.1.items,
          (populate env (context_menu env w H (pre ++ m :: rest)).world menu).2.2.heap.read
            item.payload ≠ some H) := by
  obtain ⟨evs, hevs, hloop⟩ := context_menu_loop_confirm env pre m rest
    (appfsEntryInfoExt w.reg H).name (appfsEntryInfoExt w.reg H).title hm
    (context_menu_enter w H).1 (context_menu_enter w H).2 ⟨rfl, rfl, rfl⟩ hpre
  have hcm : context_menu env w H (pre ++ m :: rest) =
      ⟨⟨env.appfsDeleteFile (appfsEntryInfoExt w.reg H).name w.reg, w.heap, w.nextIcon,
        w.trace ++
          [Event.context_menu H, Event.menu_alloc (appfsEntryInfoExt w.reg H).title] ++
          evs ++
          [Event.render_message "Uninstalling app...",
           Event.appfsDeleteFile (appfsEntryInfoExt w.reg H).name,
           Event.menu_free (appfsEntryInfoExt w.reg H).title]⟩, rest, true⟩ := by
    simp only [context_menu, hloop]
    simp [context_menu_enter, menu_alloc, menu_free, World.emit]
  have hneutral : ∀ e ∈
      [Event.context_menu H, Event.menu_alloc (appfsEntryInfoExt w.reg H).title] ++ evs ++
        [Event.render_message "Uninstalling app...",
         Event.appfsDeleteFile (appfsEntryInfoExt w.reg H).name,
         Event.menu_free (appfsEntryInfoExt w.reg H).title], e.isHeap = false := by
    intro e he
    simp only [List.mem_append, List.mem_cons, List.mem_singleton, List.not_mem_nil,
      or_false] at he
    rcases he with ((h | h) | h) | h | h | h
    · subst h; rfl
    · subst h; rfl
    · rw [hevs e h]; rfl
    · subst h; rfl
    · subst h; rfl
    · subst h; rfl
  rw [hcm]
  refine ⟨rfl, rfl, ⟨evs, hevs, rfl⟩, ?_, rfl, ?_⟩
  · simp only [List.countP_append,
      countP_eq_zero_of_forall Event.isDelete evs (fun e he => by rw [hevs e he]; rfl)]
    simp [Event.isDelete]
  · intro menu hinv hown hdel item hitem hread
    have hinv2 : HeapInv ⟨env.appfsDeleteFile (appfsEntryInfoExt w.reg H).name w.reg, w.heap,
        w.nextIcon,
        w.trace ++
          [Event.context_menu H, Event.menu_alloc (appfsEntryInfoExt w.reg H).title] ++
          evs ++
          [Event.render_message "Uninstalling app...",
           Event.appfsDeleteFile (appfsEntryInfoExt w.reg H).name,
           Event.menu_free (appfsEntryInfoExt w.reg H).title]⟩ :=
      heapInv_extend w _ _ hinv rfl (by simp) hneutral
    obtain ⟨newItems, newCells, evs2, hpop, _, _, hv, _⟩ :=
      populate_spec env _ menu hinv2 hown
    rw [hpop] at hread
    have hmem := read_value_mem _ _ _ hread
    simp only [hv] at hmem
    obtain ⟨p, hp, hpH⟩ := List.mem_map.mp hmem
    exact hdel p hp hpH

/-- Witness for C3: the two-application registry, the context menu of the second
record, a joystick-down and a timeout, then a pressed accept; once with a
deletion that removes the record and the `populate` that follows, once with a
deletion that fails and leaves the registry as it was. -/
theorem C3_witness :
    (uninstallSecond.returned = true ∧
      uninstallSecond.rest = [] ∧
      uninstallSecond.world.trace.countP Event.isDelete =
        (initialWorld regTwo).trace.countP Event.isDelete + 1 ∧
      uninstallSecond.world.reg =
        envNoIcons.appfsDeleteFile (appfsEntryInfoExt regTwo 1).name regTwo ∧
      (∀ item ∈ (populate envNoIcons uninstallSecond.world freshMenu).2.1.items,
        (populate envNoIcons uninstallSecond.world freshMenu).2.2.heap.read item.payload ≠
          some 1)) ∧
    (uninstallFails.returned = true ∧
      uninstallFails.rest = [] ∧
      uninstallFails.world.trace.countP Event.isDelete =
        (initialWorld regTwo).trace.countP Event.isDelete + 1 ∧
      uninstallFails.world.reg = regTwo) :=
  ⟨⟨(C3_uninstall_round_trip envNoIcons (initialWorld regTwo) 1
        [pressed Input.JOYSTICK_DOWN, none] (pressed Input.BUTTON_ACCEPT) []
        (by decide) (by decide)).1,
     (C3_uninstall_round_trip envNoIcons (initialWorld regTwo) 1
        [pressed Input.JOYSTICK_DOWN, none] (pressed Input.BUTTON_ACCEPT) []
        (by decide) (by decide)).2.1,
     (C3_uninstall_round_trip envNoIcons (initialWorld regTwo) 1
        [pressed Input.JOYSTICK_DOWN, none] (pressed Input.BUTTON_ACCEPT) []
        (by decide) (by decide)).2.2.2.1,
     (C3_uninstall_round_trip envNoIcons (initialWorld regTwo) 1
        [pressed Input.JOYSTICK_DOWN, none] (pressed Input.BUTTON_ACCEPT) []
        (by decide) (by decide)).2.2.2.2.1,
     (C3_uninstall_round_trip envNoIcons (initialWorld regTwo) 1
        [pressed Input.JOYSTICK_DOWN, none] (pressed Input.BUTTON_ACCEPT) []
        (by decide) (by decide)).2.2.2.2.2 freshMenu
        ⟨⟨[], rfl, by simp⟩, by simp [initialWorld], by simp [initialWorld],
          by simp [initialWorld]⟩
        rfl (by decide)⟩,
   ⟨(C3_uninstall_round_trip envDeleteFails (initialWorld regTwo) 1
        [pressed Input.JOYSTICK_DOWN, none] (pressed Input.BUTTON_ACCEPT) []
        (by decide) (by decide)).1,
     (C3_uninstall_round_trip envDeleteFails (initialWorld regTwo) 1
        [pressed Input.JOYSTICK_DOWN, none] (pressed Input.BUTTON_ACCEPT) []
        (by decide) (by decide)).2.1,
     (C3_uninstall_round_trip envDeleteFails (initialWorld regTwo) 1
        [pressed Input.JOYSTICK_DOWN, none] (pressed Input.BUTTON_ACCEPT) []
        (by decide) (by decide)).2.2.2.1,
     (C3_uninstall_round_trip envDeleteFails (initialWorld regTwo) 1
        [pressed Input.JOYSTICK_DOWN, none] (pressed Input.BUTTON_ACCEPT) []
        (by decide) (by decide)).2.2.2.2.1⟩⟩

/-- C4, as stated, fails: in the context menu opened for the only record of the
one-application registry, a pressed menu event leaves `quit` unset, so the loop
goes on. -/
theorem C4_counterexample :
    (context_menu_iteration envNoIcons (context_menu_enter (initialWorld regOne) 0).2
      (context_menu_enter (initialWorld regOne) 0).1 (pressed Input.BUTTON_MENU)).1.quit = false ∧
    (context_menu envNoIcons (initialWorld regOne) 0 [pressed Input.BUTTON_MENU]).returned =
      false := by
  decide

/-- C4, amended: in every state of the context-menu loop a pressed back or home
sets `quit`, a pressed menu changes none of the loop variables (`quit` keeps its
value); in all three cases the iteration performs at most the pending render:
no `appfsDeleteFile` call is made and the registry is untouched. -/
theorem C4_back_home_cancel_menu_ignored (env : Env) (w : World) (c : Context) :
    context_menu_iteration env w c (pressed Input.BUTTON_BACK) =
        ({ c with render := false, quit := true },
         if c.render then w.emit Event.render_context else w) ∧
      context_menu_iteration env w c (pressed Input.BUTTON_HOME) =
        ({ c with render := false, quit := true },
         if c.render then w.emit Event.render_context else w) ∧
      context_menu_iteration env w c (pressed Input.BUTTON_MENU) =
        ({ c with render := false },
         if c.render then w.emit Event.render_context else w) := by
  obtain ⟨name, menu, render, quit⟩ := c
  refine ⟨?_, ?_, ?_⟩ <;>
    cases render <;>
    simp [context_menu_iteration, context_menu_event, pressed, CONTEXT_ACTION_NONE,
      CONTEXT_ACTION_UNINSTALL]

/-- C5 fails at a record whose icon file opens and loads and whose PNG decode
fails: `populate` inserts the item with the undecoded image struct as its icon
(`some 0`, not none), and the struct allocated by `malloc_icon 0` is not
released.  At the three guarded failures (the file does not open, it cannot be
read into memory, the image struct cannot be allocated) the item has no icon. -/
theorem C5_decode_failure_keeps_icon :
    (populate envBadPng (initialWorld regOne) freshMenu).2.1.items =
        [⟨"App A", some 0, 1⟩] ∧
      (populate envBadPng (initialWorld regOne) freshMenu).2.2.trace =
        [Event.malloc 1 0,
         Event.fopen (icon_file_path "a") true,
         Event.load_file_to_ram (icon_file_path "a") true,
         Event.malloc_icon 0,
         Event.pax_decode_png_buf 0 false,
         Event.free_icon_data (icon_file_path "a"),
         Event.fclose (icon_file_path "a"),
         Event.populate_return false] ∧
      (populate envNoIcons (initialWorld regOne) freshMenu).2.1.items =
        [⟨"App A", none, 1⟩] ∧
      (populate envNoLoad (initialWorld regOne) freshMenu).2.1.items =
        [⟨"App A", none, 1⟩] ∧
      (populate envNoStruct (initialWorld regOne) freshMenu).2.1.items =
        [⟨"App A", none, 1⟩] := by
  decide

/-- C6 fails at a record with a valid icon, the screen left by a pressed back:
`populate` allocates one payload block and one image struct, the teardown
hands the struct to `pax_buf_destroy` and frees the payload, and no `free` is
ever called on the struct.  In every run the `malloc` calls for items exceed
the `free` calls on what items hold by the number of image structs allocated,
plus the payload blocks of the items still in the menu. -/
theorem C6_icon_struct_never_freed (env : Env) (reg : Registry)
    (inputs : List (Option Msg)) :
    (menu_launcher_esp32 envGoodPng regOne [pressed Input.BUTTON_BACK]).mode =
        Mode.returned ∧
      (menu_launcher_esp32 envGoodPng regOne [pressed Input.BUTTON_BACK]).world.trace =
        [Event.menu_alloc "ESP32 apps",
         Event.decode_apps_icon,
         Event.malloc 1 0,
         Event.fopen (icon_file_path "a") true,
         Event.load_file_to_ram (icon_file_path "a") true,
         Event.malloc_icon 0,
         Event.pax_decode_png_buf 0 true,
         Event.free_icon_data (icon_file_path "a"),
         Event.fclose (icon_file_path "a"),
         Event.populate_return false,
         Event.render_launcher false,
         Event.pax_buf_destroy 0,
         Event.free 1,
         Event.menu_free "ESP32 apps",
         Event.destroy_apps_icon] ∧
      (menu_launcher_esp32 envGoodPng regOne
        [pressed Input.BUTTON_BACK]).world.trace.countP Event.isMalloc = 2 ∧
      (menu_launcher_esp32 envGoodPng regOne
        [pressed Input.BUTTON_BACK]).world.trace.countP Event.isPayloadFree = 1 ∧
      (menu_launcher_esp32 env reg inputs).world.trace.countP Event.isMalloc =
        (menu_launcher_esp32 env reg inputs).world.trace.countP Event.isPayloadFree +
          (menu_launcher_esp32 env reg inputs).world.trace.countP Event.isStructMalloc +
          (match (menu_launcher_esp32 env reg inputs).mode with
           | Mode.returned => 0
           | _ => (menu_launcher_esp32 env reg inputs).st.menu.items.length) := by
  refine ⟨by decide, by decide, by decide, by decide, ?_⟩
  have hinv := launcher_inv env reg inputs
  rw [countP_isMalloc]
  generalize menu_launcher_esp32 env reg inputs = M at hinv
  obtain ⟨w, st, mode⟩ := M
  cases mode with
  | listing =>
    have h : Held w st := hinv
    have hb := h.1.2.2.2.2.2.2.2.1
    simp only [hb]
    omega
  | context c =>
    have h : Core w st.menu st.empty ∧ _ := hinv
    have hb := h.1.2.2.2.2.2.2.2.1
    simp only [hb]
    omega
  | returned =>
    have h : Done w := hinv
    have hb := h.2.2.2.2
    simp only [hb]
    omega
  | fault => exact absurd hinv (by simp [Inv])

/-- C7: `populate` returns `true` exactly when the registry cursor reports no
record after the sentinel, the menu then has length 0, and in every run of
`menu_launcher_esp32` each frame shows the "No apps installed" message exactly
when the most recent `populate` returned `true`. -/
theorem C7_empty_state (env : Env) (w : World) (menu : Menu) (reg : Registry)
    (inputs : List (Option Msg)) :
    ((populate env w menu).1 = true ↔
        appfsNextEntry w.reg APPFS_INVALID_FD = APPFS_INVALID_FD) ∧
      ((populate env w menu).1 = true ∧ menu_get_length (populate env w menu).2.1 = 0 ∨
        (populate env w menu).1 = false) ∧
      framesFollowPopulate (menu_launcher_esp32 env reg inputs).world.trace = true := by
  have hret : (populate env w menu).1 = (appEntries w.reg).isEmpty := by
    rw [populate_eq]
  refine ⟨?_, ?_, ?_⟩
  · rw [hret, appfsNextEntry_invalid, scanEntry_eq_invalid_iff, List.isEmpty_iff]
    rfl
  · cases he : (appEntries w.reg).isEmpty with
    | false => right; rw [hret, he]
    | true =>
      left
      refine ⟨by rw [hret, he], ?_⟩
      have hnil : appEntries w.reg = [] := List.isEmpty_iff.mp he
      rw [populate_eq]
      simp [hnil, populate_entries, menu_set_position, menu_get_length]
  · have hinv := launcher_inv env reg inputs
    unfold framesFollowPopulate
    generalize menu_launcher_esp32 env reg inputs = M at hinv
    obtain ⟨wd, st, mode⟩ := M
    cases mode with
    | listing =>
      have h : Held wd st := hinv
      simp only [h.1.2.2.2.2.1]
    | context c =>
      have h : Core wd st.menu st.empty ∧ _ := hinv
      simp only [h.1.2.2.2.2.1]
    | returned =>
      have h : Done wd := hinv
      exact h.2.2.1
    | fault => exact absurd hinv (by simp [Inv])

/-- C8, as stated, fails: in the two-application scene the run makes no
`appfsDeleteFile` call on the title "App B"; the one call it makes is on the
name "b". -/
theorem C8_counterexample :
    (menu_launcher_esp32 envNoIcons regTwo
        [pressed Input.JOYSTICK_DOWN, pressed Input.BUTTON_MENU,
         pressed Input.BUTTON_ACCEPT]).world.trace.count (Event.appfsDeleteFile "App B") = 0 ∧
      (menu_launcher_esp32 envNoIcons regTwo
        [pressed Input.JOYSTICK_DOWN, pressed Input.BUTTON_MENU,
         pressed Input.BUTTON_ACCEPT]).world.trace.count (Event.appfsDeleteFile "b") = 1 := by
  decide

/-- C8, amended: with the records (name "a", title "App A") and (name "b",
title "App B") and no icon files, the first `populate` gives two items without
icon; after a pressed joystick-down the position is 1; a pressed menu opens
`context_menu` for handle 1, the handle of "App B"; a pressed accept there makes
exactly one `appfsDeleteFile` call, on the name "b", and the context menu
returns; the launcher repopulates to the single item "App A" at position 0. -/
theorem C8_two_app_scene :
    appEntries regTwo = [(0, ⟨"a", "App A", 1⟩), (1, ⟨"b", "App B", 1⟩)] ∧
      (menu_launcher_esp32 envNoIcons regTwo []).st.menu.items =
        [⟨"App A", none, 1⟩, ⟨"App B", none, 2⟩] ∧
      (menu_launcher_esp32 envNoIcons regTwo []).st.menu.position = 0 ∧
      (menu_launcher_esp32 envNoIcons regTwo
        [pressed Input.JOYSTICK_DOWN]).st.menu.position = 1 ∧
      (menu_launcher_esp32 envNoIcons regTwo
        [pressed Input.JOYSTICK_DOWN, pressed Input.BUTTON_MENU]).mode =
        Mode.context ⟨"b", ⟨"App B", [⟨"Uninstall", none, CONTEXT_ACTION_UNINSTALL⟩], 0⟩,
          true, false⟩ ∧
      (menu_launcher_esp32 envNoIcons regTwo
        [pressed Input.JOYSTICK_DOWN, pressed Input.BUTTON_MENU]).world.trace.count
          (Event.context_menu 1) = 1 ∧
      (menu_launcher_esp32 envNoIcons regTwo
        [pressed Input.JOYSTICK_DOWN, pressed Input.BUTTON_MENU,
         pressed Input.BUTTON_ACCEPT]).world.trace.countP Event.isDelete = 1 ∧
      Event.appfsDeleteFile "b" ∈
        (menu_launcher_esp32 envNoIcons regTwo
          [pressed Input.JOYSTICK_DOWN, pressed Input.BUTTON_MENU,
           pressed Input.BUTTON_ACCEPT]).world.trace ∧
      (menu_launcher_esp32 envNoIcons regTwo
        [pressed Input.JOYSTICK_DOWN, pressed Input.BUTTON_MENU,
         pressed Input.BUTTON_ACCEPT]).mode = Mode.listing ∧
      (menu_launcher_esp32 envNoIcons regTwo
        [pressed Input.JOYSTICK_DOWN, pressed Input.BUTTON_MENU,
         pressed Input.BUTTON_ACCEPT]).world.reg = [some ⟨"a", "App A", 1⟩, none] ∧
      (menu_launcher_esp32 envNoIcons regTwo
        [pressed Input.JOYSTICK_DOWN, pressed Input.BUTTON_MENU,
         pressed Input.BUTTON_ACCEPT]).st.menu.items = [⟨"App A", none, 3⟩] ∧
      (menu_launcher_esp32 envNoIcons regTwo
        [pressed Input.JOYSTICK_DOWN, pressed Input.BUTTON_MENU,
         pressed Input.BUTTON_ACCEPT]).st.menu.position = 0 := by
  decide

/-- C9: in every run of `menu_launcher_esp32` the trace obeys the heap
discipline (no address is allocated twice, no block is freed while not live, no
pointer is read unless its block is live) and the machine never faults; no
block is freed twice; every allocated block has been freed exactly once or is
still live; the live blocks are exactly the payloads of the items in the menu
until the function has returned, and there is none afterwards. -/
theorem C9_payload_lifetime (env : Env) (reg : Registry) (inputs : List (Option Msg)) :
    (∃ ever, heapRun (menu_launcher_esp32 env reg inputs).world.trace =
        some (ever, (menu_launcher_esp32 env reg inputs).world.heap.cells.map Prod.fst)) ∧
      (menu_launcher_esp32 env reg inputs).mode ≠ Mode.fault ∧
      ((menu_launcher_esp32 env reg inputs).mode = Mode.returned ∧
          (menu_launcher_esp32 env reg inputs).world.heap.cells = [] ∨
        (menu_launcher_esp32 env reg inputs).mode ≠ Mode.returned ∧
          (menu_launcher_esp32 env reg inputs).st.menu.items.map MenuItem.payload =
            (menu_launcher_esp32 env reg inputs).world.heap.cells.map Prod.fst) ∧
      (∀ a, (menu_launcher_esp32 env reg inputs).world.trace.count (Event.free a) ≤ 1) ∧
      (∀ a v, Event.malloc a v ∈ (menu_launcher_esp32 env reg inputs).world.trace →
        (menu_launcher_esp32 env reg inputs).world.trace.count (Event.free a) = 1 ∨
          a ∈ (menu_launcher_esp32 env reg inputs).world.heap.cells.map Prod.fst) := by
  have hinv := launcher_inv env reg inputs
  generalize menu_launcher_esp32 env reg inputs = M at hinv
  obtain ⟨w, st, mode⟩ := M
  have hparts : HeapInv w ∧ mode ≠ Mode.fault ∧
      (mode = Mode.returned ∧ w.heap.cells = [] ∨
        mode ≠ Mode.returned ∧ st.menu.items.map MenuItem.payload =
          w.heap.cells.map Prod.fst) := by
    cases mode with
    | listing =>
      have h : Held w st := hinv
      exact ⟨h.1.1, by simp, Or.inr ⟨by simp, h.1.2.1⟩⟩
    | context c =>
      have h : Core w st.menu st.empty ∧ _ := hinv
      exact ⟨h.1.1, by simp, Or.inr ⟨by simp, h.1.2.1⟩⟩
    | returned =>
      have h : Done w := hinv
      exact ⟨h.1, by simp, Or.inl ⟨rfl, h.2.1⟩⟩
    | fault => exact absurd hinv (by simp [Inv])
  obtain ⟨⟨⟨ever, hrun, _⟩, _, _, _⟩, hmode, hlive⟩ := hparts
  obtain ⟨s1, s2, s3, s4, s5⟩ := heapRun_sound w.trace ever _ hrun
  refine ⟨⟨ever, hrun⟩, hmode, hlive, ?_, ?_⟩
  · intro a
    by_cases h1 : a ∈ ever
    · by_cases h2 : a ∈ w.heap.cells.map Prod.fst
      · simp only [s3 a h2]; omega
      · simp only [s4 a h1 h2]; omega
    · simp only [s2 a h1]; omega
  · intro a v hm
    by_cases h2 : a ∈ w.heap.cells.map Prod.fst
    · exact Or.inr h2
    · exact Or.inl (s4 a (s5 a v hm) h2)

/-- C10: in a state where the launcher loop waits for input, an iteration that
receives a non-actionable input (a timeout, a message with `state == false`,
a pressed select or start, a pressed input of another kind) keeps the menu,
both pending pointers, `quit` and the registry, clears the render flag, and
adds to the trace one frame when the render flag was set and nothing else. -/
theorem C10_non_actionable_input (env : Env) (reg : Registry) (inputs : List (Option Msg))
    (m : Option Msg)
    (hmode : (menu_launcher_esp32 env reg inputs).mode = Mode.listing)
    (hm : nonActionable m = true) :
    step env (menu_launcher_esp32 env reg inputs) m =
      ⟨{ (menu_launcher_esp32 env reg inputs).world with
          trace := (menu_launcher_esp32 env reg inputs).world.trace ++
            (if (menu_launcher_esp32 env reg inputs).st.render then
              [Event.render_launcher (menu_launcher_esp32 env reg inputs).st.empty]
             else []) },
       { (menu_launcher_esp32 env reg inputs).st with render := false },
       Mode.listing⟩ := by
  have hinv := launcher_inv env reg inputs
  generalize menu_launcher_esp32 env reg inputs = M at hinv hmode
  obtain ⟨w, st, mode⟩ := M
  simp only at hmode
  subst hmode
  obtain ⟨_, hs, hc, hq⟩ : Held w st := hinv
  have hev : launcher_event st m = st := by
    cases m with
    | none => rfl
    | some msg =>
      obtain ⟨input, state⟩ := msg
      cases state with
      | false => rfl
      | true => cases input <;> first | rfl | simp [nonActionable] at hm
  obtain ⟨menu, empty, render, start, quit, ctx⟩ := st
  simp only at hs hc hq
  subst hs hc hq
  simp only [step, hev, launcher_finish]
  cases render <;> simp [World.emit]

/-- Witness for C10: a timeout in the initial state of the two-application
registry. -/
theorem C10_witness :
    step envNoIcons (menu_launcher_esp32 envNoIcons regTwo []) none =
      ⟨{ (menu_launcher_esp32 envNoIcons regTwo []).world with
          trace := (menu_launcher_esp32 envNoIcons regTwo []).world.trace ++
            (if (menu_launcher_esp32 envNoIcons regTwo []).st.render then
              [Event.render_launcher (menu_launcher_esp32 envNoIcons regTwo []).st.empty]
             else []) },
       { (menu_launcher_esp32 envNoIcons regTwo []).st with render := false },
       Mode.listing⟩ :=
  C10_non_actionable_input envNoIcons regTwo [] none (by decide) (by decide)

end LauncherEsp32
